import Mathlib

set_option maxHeartbeats 1000000

/-!
Formal model of the shared pubsub message-authentication and abuse-resistance
core implemented by the two presence surfaces of this repository (the chat
surface in `part_000` and the live cursor surface in `part_001`).

Modelling conventions:
- JavaScript strings are modelled as lists of Unicode scalar values (`JStr`).
  String length is therefore measured in scalar values rather than UTF-16 code
  units; none of the properties below depends on the difference.
- Host-provided capabilities (WebCrypto SHA-256, the wallet
  `verifyArbitrary` capability, and wall-clock time) are passed to the model
  as explicit parameters, mirroring the fact that the source delegates them
  to `window.crypto` / `window.lumen` / `Date.now()`.
- React state cells and refs are collected into one record per surface and
  updated synchronously; the inbound subscription callback becomes a pure
  state-transition function.
- Numeric timestamps are `Nat` milliseconds.  The source only compares
  differences of timestamps against positive constants, where truncated `Nat`
  subtraction and JavaScript number subtraction agree for the delivery orders
  considered here.
-/

/-- JavaScript strings, modelled as lists of Unicode scalar values. -/
abbrev JStr := List Char

/-- Embed a Lean string literal into the `JStr` model. -/
def jstr (s : String) : JStr := s.data

/-- Whitespace as used by `String.prototype.trim` (the characters relevant to
this repository; exotic Unicode space separators are not produced by it). -/
def jsWhitespace (c : Char) : Bool :=
  c == ' ' || c == '\t' || c == '\n' || c == '\r' || c.toNat == 11 || c.toNat == 12 ||
  c.toNat == 0xA0 || c.toNat == 0xFEFF

/-- Model of `String.prototype.trim`: drop leading and trailing whitespace. -/
def jsTrim (s : JStr) : JStr :=
  ((s.dropWhile jsWhitespace).reverse.dropWhile jsWhitespace).reverse

/-- Model of `String.prototype.split` with a single-character separator, as in
`payload.split('|')` from `decodePayload`. -/
def splitOnChar (sep : Char) : JStr → List JStr
  | [] => [[]]
  | c :: rest =>
    if c = sep then [] :: splitOnChar sep rest
    else
      match splitOnChar sep rest with
      | [] => [[c]]
      | h :: t => (c :: h) :: t

/-- Model of `String.prototype.indexOf` for a single character, returning
`none` instead of `-1`. -/
def jsIndexOfChar (c : Char) (s : JStr) : Option Nat := s.findIdx? (· == c)

/-- Model of the string coercion `x || y` on JavaScript strings: the left
operand unless it is empty (falsy). -/
def jsOr (a b : JStr) : JStr := if a = [] then b else a

/-- Value of one hexadecimal digit character, if any (both cases accepted, as
in the ECMA-262 URI decoding algorithm). -/
def hexDigitVal (c : Char) : Option Nat :=
  let n := c.toNat
  if 48 ≤ n ∧ n ≤ 57 then some (n - 48)
  else if 97 ≤ n ∧ n ≤ 102 then some (n - 97 + 10)
  else if 65 ≤ n ∧ n ≤ 70 then some (n - 65 + 10)
  else none

/-- Upper-case hexadecimal digit for a value below 16, as produced by
`encodeURIComponent`. -/
def hexDigitUpper (n : Nat) : Char :=
  if n < 10 then Char.ofNat (48 + n) else Char.ofNat (65 + n - 10)

/-- UTF-8 bytes of one Unicode scalar value. -/
def utf8Bytes (c : Char) : List Nat :=
  let n := c.toNat
  if n < 0x80 then [n]
  else if n < 0x800 then [0xC0 + n / 64, 0x80 + n % 64]
  else if n < 0x10000 then [0xE0 + n / 4096, 0x80 + n / 64 % 64, 0x80 + n % 64]
  else [0xF0 + n / 262144, 0x80 + n / 4096 % 64, 0x80 + n / 64 % 64, 0x80 + n % 64]

/-- Characters left unescaped by `encodeURIComponent`: ASCII letters, digits,
and `- _ . ! ~ * ' ( )` (written here by code point). -/
def uriUnreserved (c : Char) : Bool :=
  let n := c.toNat
  decide ((65 ≤ n ∧ n ≤ 90) ∨ (97 ≤ n ∧ n ≤ 122) ∨ (48 ≤ n ∧ n ≤ 57) ∨
    n = 45 ∨ n = 95 ∨ n = 46 ∨ n = 33 ∨ n = 126 ∨ n = 42 ∨ n = 39 ∨ n = 40 ∨ n = 41)

/-- Percent-escape of one byte, upper-case hex, as used by
`encodeURIComponent`. -/
def escapeByte (b : Nat) : JStr := ['%', hexDigitUpper (b / 16), hexDigitUpper (b % 16)]

/-- Model of the host builtin `encodeURIComponent`: unreserved characters pass
through, every other character is replaced by the percent-escapes of its
UTF-8 bytes. -/
def encodeURIComponentModel (s : JStr) : JStr :=
  (s.map fun c =>
    if uriUnreserved c then [c] else ((utf8Bytes c).map escapeByte).flatten).flatten

/-- Value of a two-hex-digit escape body, if both characters are hex digits. -/
def hexPair (h1 h2 : Char) : Option Nat :=
  match hexDigitVal h1, hexDigitVal h2 with
  | some a, some b => some (16 * a + b)
  | _, _ => none

/-- One UTF-8 continuation byte read from a percent-escape `%XY`, accepted only
inside the row range `[lo, hi]` (ECMA-262 `Decode` checks these per row). -/
def contByte (lo hi : Nat) (e h1 h2 : Char) : Option Nat :=
  if e = '%' then
    match hexPair h1 h2 with
    | some b => if lo ≤ b ∧ b ≤ hi then some b else none
    | none => none
  else none

/-- One unit of the ECMA-262 `Decode` abstract operation (empty reserved set):
from the front of the string, either a plain character, or a full
percent-escaped UTF-8 sequence (with the E0/ED/F0/F4 continuation-range rows
checked per byte), giving the decoded character and the remaining string;
`none` on a malformed escape (`URIError`). -/
def pdStep (s : JStr) : Option (Char × JStr) :=
  match s with
  | [] => none
  | c1 :: rest1 =>
    if c1 = '%' then
      match rest1 with
      | h1 :: h2 :: rest2 =>
        match hexPair h1 h2 with
        | none => none
        | some byte1 =>
          if byte1 < 0x80 then some (Char.ofNat byte1, rest2)
          else if 0xC2 ≤ byte1 ∧ byte1 ≤ 0xDF then
            match rest2 with
            | e2 :: h3 :: h4 :: rest3 =>
              match contByte 0x80 0xBF e2 h3 h4 with
              | some byte2 =>
                some (Char.ofNat ((byte1 - 0xC0) * 64 + (byte2 - 0x80)), rest3)
              | none => none
            | _ => none
          else if 0xE0 ≤ byte1 ∧ byte1 ≤ 0xEF then
            match rest2 with
            | e2 :: h3 :: h4 :: e3 :: h5 :: h6 :: rest3 =>
              match contByte (if byte1 = 0xE0 then 0xA0 else 0x80)
                  (if byte1 = 0xED then 0x9F else 0xBF) e2 h3 h4,
                  contByte 0x80 0xBF e3 h5 h6 with
              | some byte2, some byte3 =>
                some (Char.ofNat ((byte1 - 0xE0) * 4096 + (byte2 - 0x80) * 64 +
                  (byte3 - 0x80)), rest3)
              | _, _ => none
            | _ => none
          else if 0xF0 ≤ byte1 ∧ byte1 ≤ 0xF4 then
            match rest2 with
            | e2 :: h3 :: h4 :: e3 :: h5 :: h6 :: e4 :: h7 :: h8 :: rest3 =>
              match contByte (if byte1 = 0xF0 then 0x90 else 0x80)
                  (if byte1 = 0xF4 then 0x8F else 0xBF) e2 h3 h4,
                  contByte 0x80 0xBF e3 h5 h6, contByte 0x80 0xBF e4 h7 h8 with
              | some byte2, some byte3, some byte4 =>
                some (Char.ofNat ((byte1 - 0xF0) * 262144 + (byte2 - 0x80) * 4096 +
                  (byte3 - 0x80) * 64 + (byte4 - 0x80)), rest3)
              | _, _, _ => none
            | _ => none
          else none
      | _ => none
    else some (c1, rest1)

/-- Iterated `pdStep` under a step budget.  Every step consumes at least one
character, so a budget of the string's length always suffices. -/
def pdRun : Nat → JStr → Option JStr
  | _, [] => some []
  | 0, _ :: _ => none
  | fuel + 1, c :: rest =>
    match pdStep (c :: rest) with
    | some p => (pdRun fuel p.2).map fun t => p.1 :: t
    | none => none

/-- Model of the host builtin `decodeURIComponent`: the ECMA-262 `Decode`
abstract operation with an empty reserved set, `none` for `URIError`. -/
def percentDecode (s : JStr) : Option JStr := pdRun s.length s

/-- Lookup in a JavaScript object or `Map`, both of which preserve insertion
order, modelled as an association list. -/
def mapGet {α : Type} (m : List (JStr × α)) (k : JStr) : Option α :=
  (m.find? fun p => decide (p.1 = k)).map (·.2)

/-- Key assignment in a JavaScript object or `Map`: update in place if the key
exists, otherwise append. -/
def mapSet {α : Type} (m : List (JStr × α)) (k : JStr) (v : α) : List (JStr × α) :=
  if m.any (fun p => decide (p.1 = k)) then
    m.map fun p => if p.1 = k then (k, v) else p
  else m ++ [(k, v)]

/-- Convenience: `String(parsed.x || '')`, a field read defaulting to the
empty string. -/
def getStr (m : List (JStr × JStr)) (k : JStr) : JStr := (mapGet m k).getD []

/-- Stable insertion into a sorted list: the new element goes before the first
element it is `le`-below, so that an element earlier in the original array
stays before any element comparing equal to it. -/
def orderedInsertLe {α : Type} (le : α → α → Bool) (a : α) : List α → List α
  | [] => [a]
  | b :: l => if le a b then a :: b :: l else b :: orderedInsertLe le a l

/-- Stable sort (the sort required of `Array.prototype.sort` by ECMAScript),
by repeated stable insertion. -/
def jsSortBy {α : Type} (le : α → α → Bool) : List α → List α
  | [] => []
  | a :: l => orderedInsertLe le a (jsSortBy le l)

/-- Model of `Array.prototype.join` with a one-character separator, as in
`parts.join('|')`. -/
def joinWith (sep : Char) : List JStr → JStr
  | [] => []
  | [p] => p
  | p :: rest => p ++ sep :: joinWith sep rest

/-- The key comparator of `encodePayload`, `(a, b) => a[0].localeCompare(b[0])`,
turned into the boolean order used by a JavaScript sort: `a` stays left of `b`
whenever the comparator is not positive. -/
def cmpLe (cmp : JStr → JStr → Ordering) (a b : JStr × JStr) : Bool :=
  decide (cmp a.1 b.1 ≠ Ordering.gt)

/-- The function `encodePayload(type, fields)` that appears identically in
`part_000` (protocol tag `pubsub_chat`) and `part_001` (tag
`pubsub_livegame`); the two copies differ only in the tag, so the tag is a
parameter.  The key comparator is the host builtin
`String.prototype.localeCompare`, passed in as `cmp`.  Field keys and values
are already strings at every call site (the `String(...)` coercions are
identities there). -/
def encodePayload (tag : JStr) (cmp : JStr → JStr → Ordering) (type : JStr)
    (fields : List (JStr × JStr)) : JStr :=
  let entries := jsSortBy (cmpLe cmp) fields
  let parts := entries.map fun kv => kv.1 ++ '=' :: encodeURIComponentModel kv.2
  tag ++ jstr "|v1|" ++ type ++ '|' :: joinWith '|' parts

/-- One iteration of the segment loop of `decodePayload`: segments with no `=`
or with the `=` at position 0 are skipped; otherwise the value is
percent-decoded (`decodeURIComponent` may throw, modelled as `Except.error`)
and assigned into the accumulating object. -/
def parseSegment (obj : List (JStr × JStr)) (p : JStr) : Except Unit (List (JStr × JStr)) :=
  match jsIndexOfChar '=' p with
  | none => Except.ok obj
  | some 0 => Except.ok obj
  | some i =>
    match percentDecode (p.drop (i + 1)) with
    | some dv => Except.ok (mapSet obj (p.take i) dv)
    | none => Except.error ()

/-- The function `decodePayload(payload)`, common to both surfaces modulo the
protocol tag.  Result: `Except.error ()` when `decodeURIComponent` throws
(the caller's surrounding `try` swallows it), `Except.ok none` for the
structural rejections, `Except.ok (some parsed)` on success, where `parsed`
is the object `{ type, ...obj }` (so a decoded `type` field overwrites the
positional type). -/
def decodePayload (tag : JStr) (payload : JStr) : Except Unit (Option (List (JStr × JStr))) :=
  match splitOnChar '|' payload with
  | p0 :: p1 :: p2 :: rest =>
    if rest.length = 0 then Except.ok none
    else if p0 ≠ tag then Except.ok none
    else if p1 ≠ jstr "v1" then Except.ok none
    else
      match rest.foldlM parseSegment [] with
      | Except.error e => Except.error e
      | Except.ok obj =>
        Except.ok (some (obj.foldl (fun m kv => mapSet m kv.1 kv.2) [(jstr "type", p2)]))
  | _ => Except.ok none

instance {ε α : Type} [DecidableEq ε] [DecidableEq α] : DecidableEq (Except ε α) := fun x y =>
  match x, y with
  | Except.error a, Except.error b =>
    if h : a = b then isTrue (by rw [h]) else isFalse (by simp [h])
  | Except.error _, Except.ok _ => isFalse (by simp)
  | Except.ok _, Except.error _ => isFalse (by simp)
  | Except.ok a, Except.ok b =>
    if h : a = b then isTrue (by rw [h]) else isFalse (by simp [h])

/-- Protocol tag of the chat surface. -/
def chatTag : JStr := jstr "pubsub_chat"

/-- Protocol tag of the live cursor surface. -/
def liveTag : JStr := jstr "pubsub_livegame"

/-- Protocol difficulty constant `POW_DIFFICULTY_BITS` from `part_000`. -/
def POW_DIFFICULTY_BITS : Nat := 12

/-- Auto-block window constant `AUTO_BLOCK_WINDOW_MS` from `part_000`. -/
def AUTO_BLOCK_WINDOW_MS : Nat := 2000

/-- Auto-block threshold constant `AUTO_BLOCK_MAX_MESSAGES` from `part_000`. -/
def AUTO_BLOCK_MAX_MESSAGES : Nat := 10

/-- Inner loop of `leadingZeroBits`: scan the bits of one non-zero byte from
bit index `i - 1` down to 0, counting zeros until the first set bit; if all
`i` bits are clear the whole count is returned (the `return bits` after the
inner loop). -/
def lzbLoop (b : Nat) : Nat → Nat
  | 0 => 0
  | i + 1 => if b &&& (1 <<< i) ≠ 0 then 0 else 1 + lzbLoop b i

/-- The function `leadingZeroBits(bytes)` from `part_000`: a zero byte
contributes 8 and counting continues; a non-zero byte is scanned from its
most significant bit and the function returns there. -/
def leadingZeroBits : List Nat → Nat
  | [] => 0
  | b :: rest => if b = 0 then 8 + leadingZeroBits rest else lzbLoop b 8

/-- The function `hasValidPow(payload, bits)` from `part_000`.  The SHA-256
digest of the payload's UTF-8 bytes is computed by the host WebCrypto
capability (`sha256Utf8`), so the digest function is a parameter. -/
def hasValidPow (digest : JStr → List Nat) (payload : JStr) (bits : Nat) : Bool :=
  decide (leadingZeroBits (digest payload) ≥ bits)

/-- MSB-first bits of one byte. -/
def byteBitsMSB (b : Nat) : List Bool :=
  [b.testBit 7, b.testBit 6, b.testBit 5, b.testBit 4,
   b.testBit 3, b.testBit 2, b.testBit 1, b.testBit 0]

/-- Specification-side count of leading zero bits: the length of the leading
run of `false` in the MSB-first bit string of the digest, counted from the
most significant bit of the first byte and continuing across bytes. -/
def countLeadingZeroBitsSpec (bytes : List Nat) : Nat :=
  (((bytes.map byteBitsMSB).flatten).takeWhile (fun x => !x)).length

/-- A raw envelope as delivered by the pubsub transport after JSON decoding:
the four string fields read by both inbound handlers. -/
structure Envelope where
  payload : JStr
  address : JStr
  pubkeyB64 : JStr
  signatureB64 : JStr
deriving DecidableEq

/-- Shaped result of the identity adapter `verifyPayload` (`part_000`): the
raw host response of `wallet.verifyArbitrary` already normalised by the
adapter's `??`/`||` fallbacks, with `derivedAddress` trimmed. -/
structure VerifyRes where
  ok : Bool
  signatureValid : Bool
  addressMatches : Bool
  derivedAddress : JStr
  error : JStr
deriving DecidableEq

/-- One message of the local chat history (`messages` state). -/
structure ChatMsg where
  id : JStr
  addr : JStr
  text : JStr
  ts : Nat
deriving DecidableEq

/-- One entry of the per-topic blocklist. -/
structure BlockEntry where
  addr : JStr
  name : JStr
  blockedAt : Nat
  reason : JStr
deriving DecidableEq

/-- The receive statistics state `rxStats`. -/
structure RxStats where
  total : Nat
  accepted : Nat
  dropped : Nat
  lastDrop : JStr
deriving DecidableEq

/-- The mutable state of the chat surface touched by the inbound pipeline:
the React state cells and refs of `part_000`.  React updates are modelled
synchronously. -/
structure ChatState where
  messages : List ChatMsg
  nameByAddr : List (JStr × JStr)
  rxStats : RxStats
  blockedByAddr : List (JStr × BlockEntry)
  lastAcceptedAt : List (JStr × Nat)
  recentNonces : List (JStr × List JStr)
  seenMsgIds : List JStr
  spamWindow : List (JStr × List Nat)
deriving DecidableEq

/-- Chat state right after `connect()` resets every store. -/
def initChatState : ChatState :=
  { messages := [], nameByAddr := [], rxStats := ⟨0, 0, 0, []⟩, blockedByAddr := [],
    lastAcceptedAt := [], recentNonces := [], seenMsgIds := [], spamWindow := [] }

/-- Record a drop with a reason tag in `rxStats`. -/
def dropStat (st : ChatState) (reason : JStr) : ChatState :=
  { st with rxStats := { st.rxStats with dropped := st.rxStats.dropped + 1, lastDrop := reason } }

/-- Record an acceptance in `rxStats`. -/
def accStat (st : ChatState) : ChatState :=
  { st with rxStats := { st.rxStats with accepted := st.rxStats.accepted + 1 } }

/-- The function `markSeenNonce(address, nonce)` from `part_000`: per-address
recent-nonce store, capped by keeping the last 20 entries once 24 are
reached. -/
def markSeenNonce (st : ChatState) (address nonce : JStr) : ChatState × Bool :=
  let addr := jsTrim address
  let n := jsTrim nonce
  if addr = [] ∨ n = [] then (st, false)
  else
    let existing := (mapGet st.recentNonces addr).getD []
    if n ∈ existing then (st, false)
    else
      let next := if existing.length ≥ 24 then existing.drop (existing.length - 20) else existing
      ({ st with recentNonces := mapSet st.recentNonces addr (next ++ [n]) }, true)

/-- The function `isRateLimited(address)` from `part_000`: at most one
admission per 1000 ms per address; on admission the last-accepted timestamp
is updated. -/
def isRateLimited (st : ChatState) (address : JStr) (now : Nat) : ChatState × Bool :=
  let addr := jsTrim address
  if addr = [] then (st, true)
  else
    let last := (mapGet st.lastAcceptedAt addr).getD 0
    if now - last < 1000 then (st, true)
    else ({ st with lastAcceptedAt := mapSet st.lastAcceptedAt addr now }, false)

/-- The function `recordSpam(address)` from `part_000`: keep the per-address
timestamps younger than the 2000 ms window, append `now`, return the window
size. -/
def recordSpam (st : ChatState) (address : JStr) (now : Nat) : ChatState × Nat :=
  let addr := jsTrim address
  if addr = [] then (st, 0)
  else
    let prev := (mapGet st.spamWindow addr).getD []
    let next := (prev.filter fun t => now - t < AUTO_BLOCK_WINDOW_MS) ++ [now]
    ({ st with spamWindow := mapSet st.spamWindow addr next }, next.length)

/-- The function `updateName(address, nextNick)` from `part_000` (the source
name collides with an existing library declaration, hence the suffix). -/
def updateNameAddr (st : ChatState) (address nextNick : JStr) : ChatState :=
  let addr := jsTrim address
  let nn := (jsTrim nextNick).take 22
  if addr = [] ∨ nn = [] then st
  else { st with nameByAddr := mapSet st.nameByAddr addr nn }

/-- The function `isBlocked(address)` from `part_000`. -/
def isBlocked (st : ChatState) (address : JStr) : Bool :=
  let addr := jsTrim address
  if addr = [] then false else (mapGet st.blockedByAddr addr).isSome

/-- The function `blockUser(address, reason, displayName)` from `part_000`:
refuses the local participant's own address, is a no-op on an already
blocked address, and purges the blocked sender's messages from the local
history.  State reads are modelled as current values (the React closure
staleness of `status`/`nameByAddr` inside the subscription callback is not
modelled). -/
def blockUser (st : ChatState) (selfAddr address reason displayName : JStr) (now : Nat) :
    ChatState :=
  let addr := jsTrim address
  if addr = [] then st
  else if selfAddr ≠ [] ∧ addr = selfAddr then st
  else
    let display0 := (jsTrim (jsOr displayName
      (jsOr ((mapGet st.nameByAddr addr).getD []) (jstr "anon")))).take 22
    let display := jsOr display0 (jstr "anon")
    let st1 :=
      if (mapGet st.blockedByAddr addr).isSome then st
      else { st with blockedByAddr :=
        (mapSet st.blockedByAddr addr ⟨addr, display, now, jsOr reason (jstr "manual")⟩) }
    { st1 with messages := st1.messages.filter fun m => decide (m.addr ≠ addr) }

/-- The function `pushMessage(entry)` from `part_000`: history capped by
keeping the last 200 entries once more than 240 accumulate. -/
def pushMessage (st : ChatState) (m : ChatMsg) : ChatState :=
  let next := if st.messages.length > 240 then st.messages.drop (st.messages.length - 200)
              else st.messages
  { st with messages := next ++ [m] }

/-- Decimal natural-number parse of a field value, for
`Number(parsed.ts || 0) || nowMs()`.  Fractional or exotic JavaScript number
strings are outside the `Nat` embedding and fall back to `now`, like `NaN`
does in the source; no property below depends on the timestamp value. -/
def tsOf (s : JStr) (now : Nat) : Nat :=
  if s ≠ [] ∧ s.all (fun c => decide (48 ≤ c.toNat ∧ c.toNat ≤ 57)) then
    let n := s.foldl (fun acc c => acc * 10 + (c.toNat - 48)) 0
    if n = 0 then now else n
  else now

/-- Outcome of one inbound chat envelope, read off the pipeline's exits. -/
inductive RxOutcome where
  | errored
  | ignoredDup
  | dropped (reason : JStr)
  | acceptedProfile
  | accepted (m : ChatMsg)
deriving DecidableEq

/-- Suffixed drop reason `pow_error[:msg]` (exception message trimmed and cut
to 40 characters). -/
def powErrorReason (msg : JStr) : JStr :=
  let suffix := jsTrim msg
  if suffix = [] then jstr "pow_error" else jstr "pow_error:" ++ suffix.take 40

/-- Suffixed drop reason `bad_sig[:err]` (verification error cut to 60
characters). -/
def badSigReason (err : JStr) : JStr :=
  if err = [] then jstr "bad_sig" else jstr "bad_sig:" ++ err.take 60

/-- Lines 469-527 of `part_000`: the dedup, blocklist, nonce-replay,
nickname, spam/auto-block, rate-limit and type-specific stages of the chat
inbound handler, entered once signature verification has succeeded.
`address` is the trimmed claimed address and `v` the verification result. -/
def postDedup (selfAddr : JStr) (now : Nat) (st : ChatState)
    (parsed : List (JStr × JStr)) (canonicalAddr msgId nonce : JStr) :
    ChatState × RxOutcome :=
  if isBlocked st canonicalAddr then (dropStat st (jstr "blocked"), .dropped (jstr "blocked"))
  else
      match markSeenNonce st canonicalAddr nonce with
      | (st, false) => (dropStat st (jstr "nonce_replay"), .dropped (jstr "nonce_replay"))
      | (st, true) =>
        let safeNick := (jsTrim (getStr parsed (jstr "nick"))).take 22
        let st := if safeNick ≠ [] then updateNameAddr st canonicalAddr safeNick else st
        match recordSpam st canonicalAddr now with
        | (st, spamCount) =>
          if spamCount > AUTO_BLOCK_MAX_MESSAGES then
            let st := blockUser st selfAddr canonicalAddr (jstr "auto_spam") safeNick now
            (dropStat st (jstr "auto_blocked"), .dropped (jstr "auto_blocked"))
          else
            match isRateLimited st canonicalAddr now with
            | (st, true) => (dropStat st (jstr "rate_limited"), .dropped (jstr "rate_limited"))
            | (st, false) =>
              let kind := getStr parsed (jstr "type")
              if kind = jstr "profile" then (accStat st, RxOutcome.acceptedProfile)
              else if kind ≠ jstr "msg" then
                (dropStat st (jstr "unknown_type"), .dropped (jstr "unknown_type"))
              else
                let txt := jsTrim (getStr parsed (jstr "text"))
                if txt = [] then (dropStat st (jstr "empty_text"), .dropped (jstr "empty_text"))
                else if txt.length > 500 then
                  (dropStat st (jstr "text_too_long"), .dropped (jstr "text_too_long"))
                else
                  let m : ChatMsg := ⟨msgId, canonicalAddr, txt, tsOf (getStr parsed (jstr "ts")) now⟩
                  (accStat (pushMessage st m), RxOutcome.accepted m)

/-- Lines 469-472 of `part_000`: canonical address, message identity and the
whole-message dedup gate; on a fresh identity the rest of the pipeline
(`postDedup`) runs on the state with the identity recorded. -/
def afterVerify (selfAddr : JStr) (now : Nat) (st : ChatState)
    (parsed : List (JStr × JStr)) (address nonce : JStr) (v : VerifyRes) :
    ChatState × RxOutcome :=
  let canonicalAddr := jsOr v.derivedAddress address
  let msgId := canonicalAddr ++ ':' :: nonce
  if msgId ∈ st.seenMsgIds then (st, RxOutcome.ignoredDup)
  else
    postDedup selfAddr now { st with seenMsgIds := st.seenMsgIds ++ [msgId] } parsed
      canonicalAddr msgId nonce

/-- The inbound subscription callback of `connect()` in `part_000`
(lines 407-531), for one already-JSON-decoded envelope: the structural,
decode, topic, nonce, proof-of-work and signature gates, then `afterVerify`.
`pow` stands for `hasValidPow(payload, POW_DIFFICULTY_BITS)` including its
possible WebCrypto exception; `verify` is the shaped result of the
`verifyPayload` adapter (the chat surface refuses to connect without the
verification capability, so the adapter is total here). -/
def handleInbound (topic selfAddr : JStr) (pow : JStr → Except JStr Bool)
    (verify : JStr → JStr → JStr → JStr → VerifyRes) (now : Nat) (st0 : ChatState)
    (e : Envelope) : ChatState × RxOutcome :=
  let st := { st0 with rxStats := { st0.rxStats with total := st0.rxStats.total + 1 } }
  let payload := e.payload
  let address := jsTrim e.address
  let pubkeyB64 := jsTrim e.pubkeyB64
  let signatureB64 := jsTrim e.signatureB64
  if payload = [] ∨ address = [] ∨ pubkeyB64 = [] ∨ signatureB64 = [] then
    (dropStat st (jstr "missing_fields"), .dropped (jstr "missing_fields"))
  else
    match decodePayload chatTag payload with
    | Except.error _ => (st, RxOutcome.errored)
    | Except.ok none => (dropStat st (jstr "bad_payload"), .dropped (jstr "bad_payload"))
    | Except.ok (some parsed) =>
      if getStr parsed (jstr "room") ≠ topic then
        (dropStat st (jstr "wrong_room"), .dropped (jstr "wrong_room"))
      else
        let nonce := jsTrim (getStr parsed (jstr "nonce"))
        if nonce = [] ∨ nonce.length > 20 then
          (dropStat st (jstr "bad_nonce"), .dropped (jstr "bad_nonce"))
        else
          match pow payload with
          | Except.error m => (dropStat st (powErrorReason m), .dropped (powErrorReason m))
          | Except.ok false => (dropStat st (jstr "bad_pow"), .dropped (jstr "bad_pow"))
          | Except.ok true =>
            let v := verify payload signatureB64 pubkeyB64 address
            if v.signatureValid = false then
              (dropStat st (badSigReason v.error), .dropped (badSigReason v.error))
            else afterVerify selfAddr now st parsed address nonce v

/-- Process a list of timestamped envelopes through the chat pipeline in
arrival order. -/
def runChat (topic selfAddr : JStr) (pow : JStr → Except JStr Bool)
    (verify : JStr → JStr → JStr → JStr → VerifyRes) :
    ChatState → List (Nat × Envelope) → ChatState
  | st, [] => st
  | st, (t, e) :: rest =>
    runChat topic selfAddr pow verify (handleInbound topic selfAddr pow verify t st e).1 rest

/-- Shaped result of the live surface's `verifyPayload` adapter (`part_001`,
no `addressMatches` there). -/
structure VerifyResLive where
  ok : Bool
  signatureValid : Bool
  derivedAddress : JStr
  error : JStr
deriving DecidableEq

/-- The `verifyPayload` adapter of `part_001`: when the host
`wallet.verifyArbitrary` capability is absent it returns the best-effort
fallback `{ ok: true, signatureValid: true, derivedAddress: '', error: '' }`;
otherwise it delegates (the shaping of the raw host response is absorbed
into the capability function). -/
def verifyPayloadLive (cap : Option (JStr → JStr → JStr → JStr → VerifyResLive))
    (payload signatureB64 pubkeyB64 address : JStr) : VerifyResLive :=
  match cap with
  | none => ⟨true, true, [], []⟩
  | some f => f payload signatureB64 pubkeyB64 address

/-- One peer of the live surface.  The floating-point cursor coordinates
(`x`, `y`, clamped via IEEE-754 arithmetic) and the derived display colour
are outside this embedding and carried by no property below; the identity
key, nickname and freshness timestamp are modelled. -/
structure LivePeer where
  nick : JStr
  ts : Nat
deriving DecidableEq

/-- Mutable state of the live surface's inbound path. -/
structure LiveState where
  seenMsgIds : List JStr
  peers : List (JStr × LivePeer)
deriving DecidableEq

/-- Live state right after `connect()` resets both stores. -/
def initLiveState : LiveState := ⟨[], []⟩

/-- Outcome of one inbound live envelope. -/
inductive LiveOutcome where
  | ignored
  | duplicate
  | badSig
  | joined (addr : JStr)
  | stated (addr : JStr)
  | otherType
deriving DecidableEq

/-- The inbound subscription callback of `connect()` in `part_001`
(lines 160-205): structural, decode, topic and nonce gates; then the
whole-message dedup keyed by the claimed (unverified) address with the
size-capped eviction; then signature verification and the `join`/`state`
dispatch into the peers map, keyed by the canonical address. -/
def handleInboundLive (topic : JStr)
    (cap : Option (JStr → JStr → JStr → JStr → VerifyResLive)) (now : Nat)
    (st : LiveState) (e : Envelope) : LiveState × LiveOutcome :=
  let payload := e.payload
  let address := jsTrim e.address
  let pubkeyB64 := jsTrim e.pubkeyB64
  let signatureB64 := jsTrim e.signatureB64
  if payload = [] ∨ address = [] ∨ pubkeyB64 = [] ∨ signatureB64 = [] then
    (st, LiveOutcome.ignored)
  else
    match decodePayload liveTag payload with
    | Except.error _ => (st, LiveOutcome.ignored)
    | Except.ok none => (st, LiveOutcome.ignored)
    | Except.ok (some parsed) =>
      if getStr parsed (jstr "room") ≠ topic then (st, LiveOutcome.ignored)
      else
        let nonce := jsTrim (getStr parsed (jstr "nonce"))
        if nonce = [] ∨ nonce.length > 20 then (st, LiveOutcome.ignored)
        else
          let unverifiedId := address ++ ':' :: nonce
          if unverifiedId ∈ st.seenMsgIds then (st, LiveOutcome.duplicate)
          else
            let st := if st.seenMsgIds.length > 2500 then
                { st with seenMsgIds := st.seenMsgIds.drop 1200 } else st
            let st := { st with seenMsgIds := st.seenMsgIds ++ [unverifiedId] }
            let v := verifyPayloadLive cap payload signatureB64 pubkeyB64 address
            if v.signatureValid = false then (st, LiveOutcome.badSig)
            else
              let canonicalAddr := jsOr v.derivedAddress address
              let t := getStr parsed (jstr "type")
              if t = jstr "join" then
                let nn := jsOr ((getStr parsed (jstr "nick")).take 22) (jstr "player")
                ({ st with peers := mapSet st.peers canonicalAddr ⟨nn, now⟩ },
                  LiveOutcome.joined canonicalAddr)
              else if t = jstr "state" then
                let nn := jsOr ((getStr parsed (jstr "nick")).take 22)
                  (jsOr (((mapGet st.peers canonicalAddr).map (·.nick)).getD []) (jstr "player"))
                ({ st with peers := mapSet st.peers canonicalAddr ⟨nn, now⟩ },
                  LiveOutcome.stated canonicalAddr)
              else (st, LiveOutcome.otherType)

/-- Process a list of timestamped envelopes through the live pipeline in
arrival order. -/
def runLive (topic : JStr) (cap : Option (JStr → JStr → JStr → JStr → VerifyResLive)) :
    LiveState → List (Nat × Envelope) → LiveState
  | st, [] => st
  | st, (t, e) :: rest => runLive topic cap (handleInboundLive topic cap t st e).1 rest

/-- Lexicographic comparison of strings by Unicode code point, the order the
specification calls "code-point order". -/
def cpCompare : JStr → JStr → Ordering
  | [], [] => Ordering.eq
  | [], _ :: _ => Ordering.lt
  | _ :: _, [] => Ordering.gt
  | a :: as, b :: bs =>
    match compare a.toNat b.toNat with
    | Ordering.eq => cpCompare as bs
    | o => o

/-- Modelled from the host: `String.prototype.localeCompare` with no locale
argument under the default (root / CLDR) collation that every ECMA-402
implementation ships, restricted to the ASCII keys this repository produces:
the primary pass compares letters case-insensitively, and a full primary tie
is broken with lower case sorting before upper case. -/
def localeCompareModel (a b : JStr) : Ordering :=
  match cpCompare (a.map Char.toLower) (b.map Char.toLower) with
  | Ordering.eq => cpCompare b a
  | o => o

/-- The gates of the chat inbound handler before signature verification
(lines 421-460 of `part_000`), as a predicate on an envelope and its decoded
payload: structural fields present, payload decodes, decoded room equals the
topic, trimmed nonce well formed and proof-of-work passes. -/
def PassesPreSig (topic : JStr) (pow : JStr → Except JStr Bool) (e : Envelope)
    (parsed : List (JStr × JStr)) : Prop :=
  e.payload ≠ [] ∧ jsTrim e.address ≠ [] ∧ jsTrim e.pubkeyB64 ≠ [] ∧
  jsTrim e.signatureB64 ≠ [] ∧
  decodePayload chatTag e.payload = Except.ok (some parsed) ∧
  getStr parsed (jstr "room") = topic ∧
  jsTrim (getStr parsed (jstr "nonce")) ≠ [] ∧
  (jsTrim (getStr parsed (jstr "nonce"))).length ≤ 20 ∧
  pow e.payload = Except.ok true

/-- The gates of the chat inbound handler up to and including signature
verification (lines 421-467 of `part_000`). -/
def PassesGates (topic : JStr) (pow : JStr → Except JStr Bool)
    (verify : JStr → JStr → JStr → JStr → VerifyRes) (e : Envelope)
    (parsed : List (JStr × JStr)) : Prop :=
  PassesPreSig topic pow e parsed ∧
  (verify e.payload (jsTrim e.signatureB64) (jsTrim e.pubkeyB64)
    (jsTrim e.address)).signatureValid = true

instance instDecidablePassesGates (topic : JStr) (pow : JStr → Except JStr Bool)
    (verify : JStr → JStr → JStr → JStr → VerifyRes) (e : Envelope)
    (parsed : List (JStr × JStr)) : Decidable (PassesGates topic pow verify e parsed) := by
  unfold PassesGates PassesPreSig
  infer_instance

/-- The canonical address the chat handler derives for an envelope:
`v.derivedAddress || address` after verification. -/
def canonOf (verify : JStr → JStr → JStr → JStr → VerifyRes) (e : Envelope) : JStr :=
  jsOr (verify e.payload (jsTrim e.signatureB64) (jsTrim e.pubkeyB64)
    (jsTrim e.address)).derivedAddress (jsTrim e.address)

/-- Trimmed nonce of a decoded payload. -/
def nonceOf (parsed : List (JStr × JStr)) : JStr := jsTrim (getStr parsed (jstr "nonce"))

/-- Conditions under which a verified envelope with canonical address `A` and
nonce `nonce` clears the dedup, blocklist, nonce-replay and auto-block gates
of `afterVerify` at time `now` in state `st`. -/
def CoreReady (A nonce : JStr) (now : Nat) (st : ChatState) : Prop :=
  A ≠ [] ∧ jsTrim A = A ∧ nonce ≠ [] ∧ jsTrim nonce = nonce ∧
  (A ++ ':' :: nonce) ∉ st.seenMsgIds ∧
  mapGet st.blockedByAddr A = none ∧
  nonce ∉ (mapGet st.recentNonces A).getD [] ∧
  ((mapGet st.recentNonces A).getD []).length < 24 ∧
  ((((mapGet st.spamWindow A).getD []).filter fun t =>
    decide (now - t < AUTO_BLOCK_WINDOW_MS)).length + 1 ≤ AUTO_BLOCK_MAX_MESSAGES)

/-- The gates of the live inbound handler before the whole-message dedup
(lines 162-174 of `part_001`). -/
def PassesGatesLive (topic : JStr) (e : Envelope) (parsed : List (JStr × JStr)) : Prop :=
  e.payload ≠ [] ∧ jsTrim e.address ≠ [] ∧ jsTrim e.pubkeyB64 ≠ [] ∧
  jsTrim e.signatureB64 ≠ [] ∧
  decodePayload liveTag e.payload = Except.ok (some parsed) ∧
  getStr parsed (jstr "room") = topic ∧
  jsTrim (getStr parsed (jstr "nonce")) ≠ [] ∧
  (jsTrim (getStr parsed (jstr "nonce"))).length ≤ 20

/-- Reference chat pipeline instance used to state claims about the seen-id
store: topic `t`, no self address, proof-of-work and signature oracles that
accept everything and derive no address. -/
def refPow : JStr → Except JStr Bool := fun _ => Except.ok true

/-- Reference verification oracle: valid signature, no derived address. -/
def refVerify : JStr → JStr → JStr → JStr → VerifyRes := fun _ _ _ _ => ⟨true, true, true, [], []⟩

/-- The boundedness property the specification asserts of the chat surface's
global seen-message-id store, stated for the reference pipeline instance:
some fixed cap bounds the store's size over every possible inbound
sequence. -/
def chatSeenIdSetBounded : Prop :=
  ∃ cap : Nat, ∀ es : List (Nat × Envelope),
    (runChat (jstr "t") [] refPow refVerify initChatState es).seenMsgIds.length ≤ cap

/-- A flood of pairwise-distinct valid envelopes for the reference pipeline:
the i-th envelope claims the address `aa...a` (i+1 letters), so every
envelope passes all gates and contributes a fresh message id. -/
def floodEnvelope (i : Nat) : Envelope :=
  ⟨jstr "pubsub_chat|v1|msg|nonce=n|room=t", List.replicate (i + 1) 'a', jstr "pk", jstr "sg"⟩

/-- Timestamped flood of `n` distinct envelopes. -/
def floodEnvelopes (n : Nat) : List (Nat × Envelope) :=
  (List.range n).map fun i => (1000000, floodEnvelope i)

/-- The i-th envelope of a concrete single-address flood used to exercise the
auto-block purge: all claim address `addr1`, with pairwise-distinct nonces. -/
def c2e (i : Nat) : Envelope :=
  ⟨jstr "pubsub_chat|v1|msg|room=t|text=hi|nonce=n" ++ [Char.ofNat (48 + i)],
   jstr "addr1", jstr "pk", jstr "sg"⟩

/-- Decoded key-value list of the i-th flood envelope's payload. -/
def c2prs (i : Nat) : List (JStr × JStr) :=
  match decodePayload chatTag (c2e i).payload with
  | Except.ok (some l) => l
  | _ => []

/-! Theorems.  Helper lemmas are shared across claims; each claim has exactly
one named theorem (plus, where required, one witness or counterexample). -/

theorem takeWhile_append_of_all {α : Type} (p : α → Bool) (l1 l2 : List α)
    (h : ∀ a ∈ l1, p a = true) :
    (l1 ++ l2).takeWhile p = l1 ++ l2.takeWhile p := by
  induction l1 with
  | nil => simp
  | cons a l ih =>
    have ha : p a = true := h a (by simp)
    simp [List.takeWhile_cons, ha, ih (fun x hx => h x (by simp [hx]))]

theorem takeWhile_append_of_short {α : Type} (p : α → Bool) (l1 l2 : List α)
    (h : (l1.takeWhile p).length < l1.length) :
    (l1 ++ l2).takeWhile p = l1.takeWhile p := by
  induction l1 with
  | nil => simp at h
  | cons a l ih =>
    cases hp : p a with
    | true =>
      simp only [List.takeWhile_cons, hp, if_true, List.cons_append] at h ⊢
      simp only [List.length_cons, Nat.add_lt_add_iff_right] at h
      simp [ih h]
    | false =>
      simp [List.takeWhile_cons, hp]

set_option maxRecDepth 4000 in
theorem lzbLoop_spec : ∀ b, b < 256 → b ≠ 0 →
    lzbLoop b 8 = ((byteBitsMSB b).takeWhile (fun x => !x)).length ∧
    ((byteBitsMSB b).takeWhile (fun x => !x)).length < 8 := by
  decide

theorem byteBitsMSB_zero : byteBitsMSB 0 = List.replicate 8 false := by decide

theorem byteBitsMSB_length (b : Nat) : (byteBitsMSB b).length = 8 := rfl

theorem leadingZeroBits_spec (l : List Nat) (h : ∀ b ∈ l, b < 256) :
    leadingZeroBits l = countLeadingZeroBitsSpec l := by
  induction l with
  | nil => rfl
  | cons b rest ih =>
    unfold leadingZeroBits countLeadingZeroBitsSpec
    by_cases hb : b = 0
    · rw [if_pos hb, hb]
      simp only [List.map_cons, List.flatten_cons, byteBitsMSB_zero]
      rw [takeWhile_append_of_all _ _ _ (by
        intro a ha
        rw [List.eq_of_mem_replicate ha]
        rfl)]
      simp only [List.length_append, List.length_replicate]
      have ihr := ih fun x hx => h x (by simp [hx])
      unfold countLeadingZeroBitsSpec at ihr
      omega
    · obtain ⟨h1, h2⟩ := lzbLoop_spec b (h b (by simp)) hb
      rw [if_neg hb]
      simp only [List.map_cons, List.flatten_cons]
      rw [takeWhile_append_of_short _ _ _ (by rw [byteBitsMSB_length]; exact h2)]
      exact h1

/-- Claim C4: `hasValidPow(payload, difficultyBits)` accepts exactly when the
number of leading zero bits of the digest of the payload — counted from the
most significant bit of the first digest byte, a zero byte contributing 8
bits with counting continuing into the next byte — is at least
`difficultyBits`.  The SHA-256 digest itself is the host WebCrypto capability
and enters as the `digest` parameter over byte values. -/
theorem c4_pow_verify_semantics (digest : JStr → List Nat) (payload : JStr) (bits : Nat)
    (h : ∀ b ∈ digest payload, b < 256) :
    hasValidPow digest payload bits = true ↔
      bits ≤ countLeadingZeroBitsSpec (digest payload) := by
  unfold hasValidPow
  rw [leadingZeroBits_spec _ h]
  simp [ge_iff_le]

/-- Witness for C4 at a concrete digest with 17 leading zero bits. -/
theorem c4_pow_verify_semantics_witness :
    (∀ b ∈ ([0, 0, 64, 255] : List Nat), b < 256) ∧
    (hasValidPow (fun _ => [0, 0, 64, 255]) (jstr "payload") 12 = true ↔
      12 ≤ countLeadingZeroBitsSpec [0, 0, 64, 255]) :=
  ⟨by decide, c4_pow_verify_semantics (fun _ => [0, 0, 64, 255]) (jstr "payload") 12 (by decide)⟩

theorem handleInbound_gates (topic selfAddr : JStr) (pow : JStr → Except JStr Bool)
    (verify : JStr → JStr → JStr → JStr → VerifyRes) (now : Nat) (st : ChatState)
    (e : Envelope) (parsed : List (JStr × JStr)) (h : PassesPreSig topic pow e parsed) :
    handleInbound topic selfAddr pow verify now st e =
      (let v := verify e.payload (jsTrim e.signatureB64) (jsTrim e.pubkeyB64) (jsTrim e.address)
       let st1 : ChatState :=
         { st with rxStats := { st.rxStats with total := st.rxStats.total + 1 } }
       if v.signatureValid = false then
         (dropStat st1 (badSigReason v.error), RxOutcome.dropped (badSigReason v.error))
       else afterVerify selfAddr now st1 parsed (jsTrim e.address) (nonceOf parsed) v) := by
  obtain ⟨h1, h2, h3, h4, hdec, hroom, hn1, hn2, hpow⟩ := h
  unfold handleInbound
  rw [if_neg (by simp [h1, h2, h3, h4])]
  rw [hdec, hpow]
  simp only [hroom, ne_eq, not_true_eq_false, if_false, ite_false]
  rw [if_neg (by simp [hn1, hn2])]
  rfl

theorem dropWhile_dropWhile {α : Type} (p : α → Bool) (l : List α) :
    (l.dropWhile p).dropWhile p = l.dropWhile p := by
  induction l with
  | nil => rfl
  | cons a t ih =>
    cases hp : p a with
    | true => simp [List.dropWhile_cons, hp, ih]
    | false => simp [List.dropWhile_cons, hp]

theorem dropWhile_head_false {α : Type} (p : α → Bool) (l : List α) (a : α) (t : List α)
    (h : l.dropWhile p = a :: t) : p a = false := by
  induction l with
  | nil => simp at h
  | cons b r ih =>
    cases hp : p b with
    | true => exact ih (by simpa [List.dropWhile_cons, hp] using h)
    | false =>
      simp only [List.dropWhile_cons, hp, if_false, Bool.false_eq_true, ite_false] at h
      cases h
      exact hp

theorem dropWhile_append_single {α : Type} (p : α → Bool) (l : List α) (a : α)
    (h : p a = false) : (l ++ [a]).dropWhile p = l.dropWhile p ++ [a] := by
  induction l with
  | nil => simp [List.dropWhile_cons, h]
  | cons b r ih =>
    cases hp : p b with
    | true => simp [List.dropWhile_cons, hp, ih]
    | false => simp [List.dropWhile_cons, hp]

theorem jsTrim_idem (s : JStr) : jsTrim (jsTrim s) = jsTrim s := by
  unfold jsTrim
  cases hu : s.dropWhile jsWhitespace with
  | nil => simp
  | cons a u2 =>
    have ha : jsWhitespace a = false := dropWhile_head_false _ _ _ _ hu
    rw [List.reverse_cons, dropWhile_append_single _ _ _ ha, List.reverse_append]
    simp only [List.reverse_cons, List.reverse_nil, List.nil_append, List.singleton_append]
    rw [List.dropWhile_cons]
    simp only [ha, Bool.false_eq_true, if_false, ite_false]
    rw [List.reverse_cons, List.reverse_reverse, dropWhile_append_single _ _ _ ha,
      dropWhile_dropWhile, List.reverse_append]
    simp

theorem updateNameAddr_eq (st : ChatState) (a n : JStr) :
    ∃ nm, updateNameAddr st a n = { st with nameByAddr := nm } := by
  rcases Decidable.em (jsTrim a = [] ∨ (jsTrim n).take 22 = []) with h | h
  · exact ⟨st.nameByAddr, by simp only [updateNameAddr]; rw [if_pos h]⟩
  · exact ⟨mapSet st.nameByAddr (jsTrim a) ((jsTrim n).take 22), by
      simp only [updateNameAddr]; rw [if_neg h]⟩
theorem isBlocked_eq (st : ChatState) (A : JStr) (hAtr : jsTrim A = A) (hA0 : A ≠ []) :
    isBlocked st A = (mapGet st.blockedByAddr A).isSome := by
  simp [isBlocked, hAtr, hA0]

theorem markSeenNonce_eq (st : ChatState) (A n : JStr) (hAtr : jsTrim A = A) (hA0 : A ≠ [])
    (hNtr : jsTrim n = n) (hN0 : n ≠ [])
    (hrep : n ∉ (mapGet st.recentNonces A).getD [])
    (hlen : ((mapGet st.recentNonces A).getD []).length < 24) :
    markSeenNonce st A n =
      ({ st with recentNonces :=
          (mapSet st.recentNonces A ((mapGet st.recentNonces A).getD [] ++ [n])) }, true) := by
  simp only [markSeenNonce, hAtr, hNtr]
  rw [if_neg (by simp [hA0, hN0])]
  rw [if_neg hrep, if_neg (by omega)]

theorem recordSpam_eq (st : ChatState) (A : JStr) (now : Nat) (hAtr : jsTrim A = A)
    (hA0 : A ≠ []) :
    recordSpam st A now =
      ({ st with spamWindow := (mapSet st.spamWindow A
          ((((mapGet st.spamWindow A).getD []).filter fun t =>
            decide (now - t < AUTO_BLOCK_WINDOW_MS)) ++ [now])) },
        (((mapGet st.spamWindow A).getD []).filter fun t =>
          decide (now - t < AUTO_BLOCK_WINDOW_MS)).length + 1) := by
  simp [recordSpam, hAtr, hA0]

theorem isRateLimited_eq_true (st : ChatState) (A : JStr) (now : Nat) (hAtr : jsTrim A = A)
    (hA0 : A ≠ []) (h : now - (mapGet st.lastAcceptedAt A).getD 0 < 1000) :
    isRateLimited st A now = (st, true) := by
  simp [isRateLimited, hAtr, hA0, h]

theorem isRateLimited_eq_false (st : ChatState) (A : JStr) (now : Nat) (hAtr : jsTrim A = A)
    (hA0 : A ≠ []) (h : ¬ now - (mapGet st.lastAcceptedAt A).getD 0 < 1000) :
    isRateLimited st A now =
      ({ st with lastAcceptedAt := mapSet st.lastAcceptedAt A now }, false) := by
  simp [isRateLimited, hAtr, hA0, h]

theorem blockUser_not_yet (st : ChatState) (selfAddr A reason nick : JStr) (now : Nat)
    (hAtr : jsTrim A = A) (hA0 : A ≠ []) (hre : reason ≠ [])
    (hself : selfAddr = [] ∨ A ≠ selfAddr)
    (hnb : mapGet st.blockedByAddr A = none) :
    ∃ d : JStr, blockUser st selfAddr A reason nick now =
      { st with
        blockedByAddr := mapSet st.blockedByAddr A ⟨A, d, now, reason⟩
        messages := st.messages.filter (fun m => decide (m.addr ≠ A)) } := by
  refine ⟨jsOr ((jsTrim (jsOr nick
    (jsOr ((mapGet st.nameByAddr A).getD []) (jstr "anon")))).take 22) (jstr "anon"), ?_⟩
  simp only [blockUser, hAtr]
  rw [if_neg hA0, if_neg (by rcases hself with h | h <;> simp [h])]
  rw [if_neg (by simp [hnb])]
  simp [jsOr, hre]
theorem afterVerify_ready (selfAddr : JStr) (now : Nat) (st : ChatState)
    (parsed : List (JStr × JStr)) (address A : JStr) (v : VerifyRes)
    (hA : jsOr v.derivedAddress address = A)
    (hr : CoreReady A (nonceOf parsed) now st) :
    ∃ nm : List (JStr × JStr),
      afterVerify selfAddr now st parsed address (nonceOf parsed) v =
      (let stMid : ChatState :=
        { st with
          seenMsgIds := st.seenMsgIds ++ [A ++ ':' :: nonceOf parsed]
          recentNonces := mapSet st.recentNonces A
            ((mapGet st.recentNonces A).getD [] ++ [nonceOf parsed])
          nameByAddr := nm
          spamWindow := mapSet st.spamWindow A
            ((((mapGet st.spamWindow A).getD []).filter fun t =>
              decide (now - t < AUTO_BLOCK_WINDOW_MS)) ++ [now]) }
      if now - (mapGet st.lastAcceptedAt A).getD 0 < 1000 then
        (dropStat stMid (jstr "rate_limited"), RxOutcome.dropped (jstr "rate_limited"))
      else
        let stR : ChatState := { stMid with lastAcceptedAt := mapSet st.lastAcceptedAt A now }
        if getStr parsed (jstr "type") = jstr "profile" then
          (accStat stR, RxOutcome.acceptedProfile)
        else if getStr parsed (jstr "type") ≠ jstr "msg" then
          (dropStat stR (jstr "unknown_type"), RxOutcome.dropped (jstr "unknown_type"))
        else if jsTrim (getStr parsed (jstr "text")) = [] then
          (dropStat stR (jstr "empty_text"), RxOutcome.dropped (jstr "empty_text"))
        else if (jsTrim (getStr parsed (jstr "text"))).length > 500 then
          (dropStat stR (jstr "text_too_long"), RxOutcome.dropped (jstr "text_too_long"))
        else
          (accStat (pushMessage stR ⟨A ++ ':' :: nonceOf parsed, A,
              jsTrim (getStr parsed (jstr "text")), tsOf (getStr parsed (jstr "ts")) now⟩),
           RxOutcome.accepted ⟨A ++ ':' :: nonceOf parsed, A,
              jsTrim (getStr parsed (jstr "text")), tsOf (getStr parsed (jstr "ts")) now⟩)) := by
  obtain ⟨hA0, hAtr, hN0, hNtr, hid, hnb, hrep, hlen, hspam⟩ := hr
  obtain ⟨nm0, hnm0⟩ : ∃ nm2,
      (if ((jsTrim (getStr parsed (jstr "nick"))).take 22) ≠ [] then
        updateNameAddr
          { st with
            seenMsgIds := st.seenMsgIds ++ [A ++ ':' :: nonceOf parsed]
            recentNonces := mapSet st.recentNonces A
              ((mapGet st.recentNonces A).getD [] ++ [nonceOf parsed]) }
          A ((jsTrim (getStr parsed (jstr "nick"))).take 22)
      else
        { st with
          seenMsgIds := st.seenMsgIds ++ [A ++ ':' :: nonceOf parsed]
          recentNonces := mapSet st.recentNonces A
            ((mapGet st.recentNonces A).getD [] ++ [nonceOf parsed]) }) =
      { st with
        seenMsgIds := st.seenMsgIds ++ [A ++ ':' :: nonceOf parsed]
        recentNonces := mapSet st.recentNonces A
          ((mapGet st.recentNonces A).getD [] ++ [nonceOf parsed])
        nameByAddr := nm2 } := by
    by_cases h : ((jsTrim (getStr parsed (jstr "nick"))).take 22) ≠ []
    · obtain ⟨nm, hnm⟩ := updateNameAddr_eq
        { st with
          seenMsgIds := st.seenMsgIds ++ [A ++ ':' :: nonceOf parsed]
          recentNonces := mapSet st.recentNonces A
            ((mapGet st.recentNonces A).getD [] ++ [nonceOf parsed]) }
        A ((jsTrim (getStr parsed (jstr "nick"))).take 22)
      exact ⟨nm, by rw [if_pos h]; exact hnm⟩
    · exact ⟨st.nameByAddr, by rw [if_neg h]⟩
  refine ⟨nm0, ?_⟩
  simp only [afterVerify, postDedup]
  rw [hA]
  rw [if_neg hid]
  rw [isBlocked_eq _ _ hAtr hA0]
  simp only [hnb, Option.isSome_none, Bool.false_eq_true, if_false, ite_false]
  rw [markSeenNonce_eq _ _ _ hAtr hA0 hNtr hN0 (by simpa using hrep) (by simpa using hlen)]
  dsimp only
  rw [hnm0]
  rw [recordSpam_eq _ _ _ hAtr hA0]
  rw [if_neg (by simpa using Nat.not_lt.mpr hspam)]
  by_cases hrate : now - (mapGet st.lastAcceptedAt A).getD 0 < 1000
  · rw [isRateLimited_eq_true _ _ _ hAtr hA0 (by simpa using hrate)]
    dsimp only
    rw [if_pos hrate]
  · rw [isRateLimited_eq_false _ _ _ hAtr hA0 (by simpa using hrate)]
    dsimp only
    rw [if_neg hrate]
theorem afterVerify_dup (selfAddr : JStr) (now : Nat) (st : ChatState)
    (parsed : List (JStr × JStr)) (address A : JStr) (v : VerifyRes)
    (hA : jsOr v.derivedAddress address = A)
    (hid : A ++ ':' :: nonceOf parsed ∈ st.seenMsgIds) :
    afterVerify selfAddr now st parsed address (nonceOf parsed) v =
      (st, RxOutcome.ignoredDup) := by
  simp only [afterVerify, postDedup]
  rw [hA, if_pos hid]

theorem afterVerify_blocked (selfAddr : JStr) (now : Nat) (st : ChatState)
    (parsed : List (JStr × JStr)) (address A : JStr) (v : VerifyRes)
    (hA : jsOr v.derivedAddress address = A) (hA0 : A ≠ []) (hAtr : jsTrim A = A)
    (hid : A ++ ':' :: nonceOf parsed ∉ st.seenMsgIds)
    (hb : (mapGet st.blockedByAddr A).isSome = true) :
    afterVerify selfAddr now st parsed address (nonceOf parsed) v =
      (dropStat { st with seenMsgIds := st.seenMsgIds ++ [A ++ ':' :: nonceOf parsed] }
        (jstr "blocked"), RxOutcome.dropped (jstr "blocked")) := by
  simp only [afterVerify, postDedup]
  rw [hA, if_neg hid]
  rw [isBlocked_eq _ _ hAtr hA0]
  dsimp only
  rw [if_pos hb]

theorem afterVerify_spamfire (selfAddr : JStr) (now : Nat) (st : ChatState)
    (parsed : List (JStr × JStr)) (address A : JStr) (v : VerifyRes)
    (hA : jsOr v.derivedAddress address = A) (hA0 : A ≠ []) (hAtr : jsTrim A = A)
    (hN0 : nonceOf parsed ≠ []) (hNtr : jsTrim (nonceOf parsed) = nonceOf parsed)
    (hid : A ++ ':' :: nonceOf parsed ∉ st.seenMsgIds)
    (hnb : mapGet st.blockedByAddr A = none)
    (hrep : nonceOf parsed ∉ (mapGet st.recentNonces A).getD [])
    (hlen : ((mapGet st.recentNonces A).getD []).length < 24)
    (hspam : ((((mapGet st.spamWindow A).getD []).filter fun t =>
      decide (now - t < AUTO_BLOCK_WINDOW_MS)).length + 1 > AUTO_BLOCK_MAX_MESSAGES))
    (hself : selfAddr = [] ∨ A ≠ selfAddr) :
    ∃ nm : List (JStr × JStr), ∃ d : JStr,
      afterVerify selfAddr now st parsed address (nonceOf parsed) v =
      ({ st with
          seenMsgIds := st.seenMsgIds ++ [A ++ ':' :: nonceOf parsed]
          recentNonces := mapSet st.recentNonces A
            ((mapGet st.recentNonces A).getD [] ++ [nonceOf parsed])
          nameByAddr := nm
          spamWindow := mapSet st.spamWindow A
            ((((mapGet st.spamWindow A).getD []).filter fun t =>
              decide (now - t < AUTO_BLOCK_WINDOW_MS)) ++ [now])
          blockedByAddr := mapSet st.blockedByAddr A ⟨A, d, now, jstr "auto_spam"⟩
          messages := st.messages.filter (fun m => decide (m.addr ≠ A))
          rxStats := { st.rxStats with
            dropped := st.rxStats.dropped + 1
            lastDrop := jstr "auto_blocked" } },
        RxOutcome.dropped (jstr "auto_blocked")) := by
  obtain ⟨nm0, hnm0⟩ : ∃ nm2,
      (if ((jsTrim (getStr parsed (jstr "nick"))).take 22) ≠ [] then
        updateNameAddr
          { st with
            seenMsgIds := st.seenMsgIds ++ [A ++ ':' :: nonceOf parsed]
            recentNonces := mapSet st.recentNonces A
              ((mapGet st.recentNonces A).getD [] ++ [nonceOf parsed]) }
          A ((jsTrim (getStr parsed (jstr "nick"))).take 22)
      else
        { st with
          seenMsgIds := st.seenMsgIds ++ [A ++ ':' :: nonceOf parsed]
          recentNonces := mapSet st.recentNonces A
            ((mapGet st.recentNonces A).getD [] ++ [nonceOf parsed]) }) =
      { st with
        seenMsgIds := st.seenMsgIds ++ [A ++ ':' :: nonceOf parsed]
        recentNonces := mapSet st.recentNonces A
          ((mapGet st.recentNonces A).getD [] ++ [nonceOf parsed])
        nameByAddr := nm2 } := by
    by_cases h : ((jsTrim (getStr parsed (jstr "nick"))).take 22) ≠ []
    · obtain ⟨nm, hnm⟩ := updateNameAddr_eq
        { st with
          seenMsgIds := st.seenMsgIds ++ [A ++ ':' :: nonceOf parsed]
          recentNonces := mapSet st.recentNonces A
            ((mapGet st.recentNonces A).getD [] ++ [nonceOf parsed]) }
        A ((jsTrim (getStr parsed (jstr "nick"))).take 22)
      exact ⟨nm, by rw [if_pos h]; exact hnm⟩
    · exact ⟨st.nameByAddr, by rw [if_neg h]⟩
  obtain ⟨d0, hd0⟩ := blockUser_not_yet
    { st with
      seenMsgIds := st.seenMsgIds ++ [A ++ ':' :: nonceOf parsed]
      recentNonces := mapSet st.recentNonces A
        ((mapGet st.recentNonces A).getD [] ++ [nonceOf parsed])
      nameByAddr := nm0
      spamWindow := mapSet st.spamWindow A
        ((((mapGet st.spamWindow A).getD []).filter fun t =>
          decide (now - t < AUTO_BLOCK_WINDOW_MS)) ++ [now]) }
    selfAddr A (jstr "auto_spam") ((jsTrim (getStr parsed (jstr "nick"))).take 22) now
    hAtr hA0 (by decide) hself (by simpa using hnb)
  refine ⟨nm0, d0, ?_⟩
  simp only [afterVerify, postDedup]
  rw [hA, if_neg hid]
  rw [isBlocked_eq _ _ hAtr hA0]
  simp only [hnb, Option.isSome_none, Bool.false_eq_true, if_false, ite_false]
  rw [markSeenNonce_eq _ _ _ hAtr hA0 hNtr hN0 (by simpa using hrep) (by simpa using hlen)]
  dsimp only
  rw [hnm0]
  rw [recordSpam_eq _ _ _ hAtr hA0]
  rw [if_pos (by simpa using hspam)]
  rw [hd0]
  rfl
theorem handleInboundLive_gates (topic : JStr)
    (cap : Option (JStr → JStr → JStr → JStr → VerifyResLive)) (now : Nat)
    (st : LiveState) (e : Envelope) (parsed : List (JStr × JStr))
    (h : PassesGatesLive topic e parsed) :
    handleInboundLive topic cap now st e =
      (let unverifiedId := jsTrim e.address ++ ':' :: nonceOf parsed
       if unverifiedId ∈ st.seenMsgIds then (st, LiveOutcome.duplicate)
       else
         let st1 : LiveState := if st.seenMsgIds.length > 2500 then
           { st with seenMsgIds := st.seenMsgIds.drop 1200 } else st
         let st2 : LiveState := { st1 with seenMsgIds := st1.seenMsgIds ++ [unverifiedId] }
         let v := verifyPayloadLive cap e.payload (jsTrim e.signatureB64) (jsTrim e.pubkeyB64)
           (jsTrim e.address)
         if v.signatureValid = false then (st2, LiveOutcome.badSig)
         else
           let canonicalAddr := jsOr v.derivedAddress (jsTrim e.address)
           if getStr parsed (jstr "type") = jstr "join" then
             ({ st2 with peers := (mapSet st2.peers canonicalAddr
                ⟨jsOr ((getStr parsed (jstr "nick")).take 22) (jstr "player"), now⟩) },
              LiveOutcome.joined canonicalAddr)
           else if getStr parsed (jstr "type") = jstr "state" then
             ({ st2 with peers := (mapSet st2.peers canonicalAddr
                ⟨jsOr ((getStr parsed (jstr "nick")).take 22)
                  (jsOr (((mapGet st2.peers canonicalAddr).map (fun p => p.nick)).getD [])
                    (jstr "player")), now⟩) },
              LiveOutcome.stated canonicalAddr)
           else (st2, LiveOutcome.otherType)) := by
  obtain ⟨h1, h2, h3, h4, hdec, hroom, hn1, hn2⟩ := h
  unfold handleInboundLive
  rw [if_neg (by simp [h1, h2, h3, h4])]
  rw [hdec]
  simp only [hroom, ne_eq, not_true_eq_false, if_false, ite_false]
  rw [if_neg (by simp [hn1, hn2])]
  rfl

/-- Claim C7: an envelope whose decoded `room` differs from the subscription
topic is dropped with reason `wrong_room` before proof-of-work or signature
verification is attempted, and is never dispatched.  In the chat surface the
result — only the receive statistics change, with `lastDrop = wrong_room` —
is the same for every proof-of-work and verification oracle, which expresses
that neither is consulted; the message history is untouched, so nothing is
dispatched.  In the live surface the cross-topic envelope is dropped
silently (that surface records no reason tags) with the state unchanged for
every verification capability, so the peers map receives nothing. -/
theorem c7_wrong_room_isolation :
    (∀ (topic selfAddr : JStr) (pow : JStr → Except JStr Bool)
       (verify : JStr → JStr → JStr → JStr → VerifyRes) (now : Nat) (st : ChatState)
       (e : Envelope) (parsed : List (JStr × JStr)),
       e.payload ≠ [] → jsTrim e.address ≠ [] → jsTrim e.pubkeyB64 ≠ [] →
       jsTrim e.signatureB64 ≠ [] →
       decodePayload chatTag e.payload = Except.ok (some parsed) →
       getStr parsed (jstr "room") ≠ topic →
       handleInbound topic selfAddr pow verify now st e =
         (dropStat { st with rxStats := { st.rxStats with total := st.rxStats.total + 1 } }
           (jstr "wrong_room"), RxOutcome.dropped (jstr "wrong_room"))) ∧
    (∀ (topic : JStr) (cap : Option (JStr → JStr → JStr → JStr → VerifyResLive)) (now : Nat)
       (st : LiveState) (e : Envelope) (parsed : List (JStr × JStr)),
       e.payload ≠ [] → jsTrim e.address ≠ [] → jsTrim e.pubkeyB64 ≠ [] →
       jsTrim e.signatureB64 ≠ [] →
       decodePayload liveTag e.payload = Except.ok (some parsed) →
       getStr parsed (jstr "room") ≠ topic →
       handleInboundLive topic cap now st e = (st, LiveOutcome.ignored)) := by
  constructor
  · intro topic selfAddr pow verify now st e parsed h1 h2 h3 h4 hdec hroom
    unfold handleInbound
    rw [if_neg (by simp [h1, h2, h3, h4])]
    rw [hdec]
    simp only [hroom, ne_eq, not_false_eq_true, if_true, ite_true]
  · intro topic cap now st e parsed h1 h2 h3 h4 hdec hroom
    unfold handleInboundLive
    rw [if_neg (by simp [h1, h2, h3, h4])]
    rw [hdec]
    simp only [hroom, ne_eq, not_false_eq_true, if_true, ite_true]

/-- Witness for C7 at a concrete cross-topic envelope and concrete oracles. -/
theorem c7_wrong_room_isolation_witness :
    handleInbound (jstr "t") [] refPow refVerify 5000 initChatState
      ⟨jstr "pubsub_chat|v1|msg|nonce=n1|room=u|text=hi", jstr "alice", jstr "pk", jstr "sg"⟩ =
      (dropStat { initChatState with rxStats :=
          { initChatState.rxStats with total := initChatState.rxStats.total + 1 } }
        (jstr "wrong_room"), RxOutcome.dropped (jstr "wrong_room")) ∧
    handleInboundLive (jstr "t") none 5000 initLiveState
      ⟨jstr "pubsub_livegame|v1|join|nonce=n1|room=u", jstr "alice", jstr "pk", jstr "sg"⟩ =
      (initLiveState, LiveOutcome.ignored) :=
  ⟨(c7_wrong_room_isolation).1 (jstr "t") [] refPow refVerify 5000 initChatState
      ⟨jstr "pubsub_chat|v1|msg|nonce=n1|room=u|text=hi", jstr "alice", jstr "pk", jstr "sg"⟩
      ((jstr "type", jstr "msg") :: (jstr "nonce", jstr "n1") ::
        (jstr "room", jstr "u") :: [(jstr "text", jstr "hi")])
      (by decide) (by decide) (by decide) (by decide) (by decide) (by decide),
   (c7_wrong_room_isolation).2 (jstr "t") none 5000 initLiveState
      ⟨jstr "pubsub_livegame|v1|join|nonce=n1|room=u", jstr "alice", jstr "pk", jstr "sg"⟩
      ((jstr "type", jstr "join") :: (jstr "nonce", jstr "n1") :: [(jstr "room", jstr "u")])
      (by decide) (by decide) (by decide) (by decide) (by decide) (by decide)⟩
theorem markSeenNonce_seen (st : ChatState) (a n : JStr) :
    (markSeenNonce st a n).1.seenMsgIds = st.seenMsgIds := by
  unfold markSeenNonce
  dsimp only
  split
  · rfl
  · split
    · rfl
    · rfl

theorem recordSpam_seen (st : ChatState) (a : JStr) (now : Nat) :
    (recordSpam st a now).1.seenMsgIds = st.seenMsgIds := by
  unfold recordSpam
  dsimp only
  split
  · rfl
  · rfl

theorem isRateLimited_seen (st : ChatState) (a : JStr) (now : Nat) :
    (isRateLimited st a now).1.seenMsgIds = st.seenMsgIds := by
  unfold isRateLimited
  dsimp only
  split
  · rfl
  · split
    · rfl
    · rfl

theorem blockUser_seen (st : ChatState) (selfAddr a r d : JStr) (now : Nat) :
    (blockUser st selfAddr a r d now).seenMsgIds = st.seenMsgIds := by
  unfold blockUser
  dsimp only
  split
  · rfl
  · split
    · rfl
    · split
      · rfl
      · rfl

theorem updateNameAddr_seen (st : ChatState) (a n : JStr) :
    (updateNameAddr st a n).seenMsgIds = st.seenMsgIds := by
  obtain ⟨nm, hnm⟩ := updateNameAddr_eq st a n
  rw [hnm]

theorem postDedup_seen (selfAddr : JStr) (now : Nat) (st : ChatState)
    (parsed : List (JStr × JStr)) (canonicalAddr msgId nonce : JStr) :
    (postDedup selfAddr now st parsed canonicalAddr msgId nonce).1.seenMsgIds =
      st.seenMsgIds := by
  unfold postDedup
  dsimp only
  split
  · rfl
  · split
    · rename_i stX heq
      have h1 : stX.seenMsgIds = st.seenMsgIds := by
        have h := congrArg (fun p => (p : ChatState × Bool).1.seenMsgIds) heq
        dsimp only at h
        rw [markSeenNonce_seen] at h
        exact h.symm
      simp [dropStat, h1]
    · rename_i stX heq
      have h1 : stX.seenMsgIds = st.seenMsgIds := by
        have h := congrArg (fun p => (p : ChatState × Bool).1.seenMsgIds) heq
        dsimp only at h
        rw [markSeenNonce_seen] at h
        exact h.symm
      set stN : ChatState := (if (jsTrim (getStr parsed (jstr "nick"))).take 22 ≠ [] then
          updateNameAddr stX canonicalAddr ((jsTrim (getStr parsed (jstr "nick"))).take 22)
          else stX) with hstN
      have h2 : stN.seenMsgIds = st.seenMsgIds := by
        rw [hstN]
        split
        · rw [updateNameAddr_seen, h1]
        · exact h1
      have h3 : (recordSpam stN canonicalAddr now).1.seenMsgIds = st.seenMsgIds := by
        rw [recordSpam_seen, h2]
      split
      · simp [dropStat, blockUser_seen, h3]
      · split
        · rename_i stZ heq3
          have h4 : stZ.seenMsgIds = st.seenMsgIds := by
            have h := congrArg (fun p => (p : ChatState × Bool).1.seenMsgIds) heq3
            dsimp only at h
            rw [isRateLimited_seen] at h
            rw [← h, h3]
          simp [dropStat, h4]
        · rename_i stZ heq3
          have h4 : stZ.seenMsgIds = st.seenMsgIds := by
            have h := congrArg (fun p => (p : ChatState × Bool).1.seenMsgIds) heq3
            dsimp only at h
            rw [isRateLimited_seen] at h
            rw [← h, h3]
          split
          · simp [accStat, h4]
          · split
            · simp [dropStat, h4]
            · split
              · simp [dropStat, h4]
              · split
                · simp [dropStat, h4]
                · simp [accStat, pushMessage, h4]

theorem afterVerify_seen (selfAddr : JStr) (now : Nat) (st : ChatState)
    (parsed : List (JStr × JStr)) (address nonce : JStr) (v : VerifyRes)
    (hid : jsOr v.derivedAddress address ++ ':' :: nonce ∉ st.seenMsgIds) :
    (afterVerify selfAddr now st parsed address nonce v).1.seenMsgIds =
      st.seenMsgIds ++ [jsOr v.derivedAddress address ++ ':' :: nonce] := by
  unfold afterVerify
  dsimp only
  rw [if_neg hid, postDedup_seen]
/-- Claim C1, amended.  In the chat surface the whole-message dedup identity
is indeed `canonicalAddress:nonce`, computed only after signature
verification succeeds — (a) a failing verification records nothing, and
(b) a successful one records `canonOf:nonce`, where the canonical address is
the derived address when non-empty, falling back to the claimed address when
verification supplies none.  (c) In the live surface, however, the dedup
identity is `claimedAddress:nonce`, computed and recorded before signature
verification — the update is the same for every verification capability,
valid or not. -/
theorem c1_message_identity_amended :
    (∀ (topic selfAddr : JStr) (pow : JStr → Except JStr Bool)
       (verify : JStr → JStr → JStr → JStr → VerifyRes) (now : Nat) (st : ChatState)
       (e : Envelope) (parsed : List (JStr × JStr)),
       PassesPreSig topic pow e parsed →
       (verify e.payload (jsTrim e.signatureB64) (jsTrim e.pubkeyB64)
         (jsTrim e.address)).signatureValid = false →
       (handleInbound topic selfAddr pow verify now st e).1.seenMsgIds = st.seenMsgIds) ∧
    (∀ (topic selfAddr : JStr) (pow : JStr → Except JStr Bool)
       (verify : JStr → JStr → JStr → JStr → VerifyRes) (now : Nat) (st : ChatState)
       (e : Envelope) (parsed : List (JStr × JStr)),
       PassesGates topic pow verify e parsed →
       canonOf verify e ++ ':' :: nonceOf parsed ∉ st.seenMsgIds →
       (handleInbound topic selfAddr pow verify now st e).1.seenMsgIds =
         st.seenMsgIds ++ [canonOf verify e ++ ':' :: nonceOf parsed]) ∧
    (∀ (topic : JStr) (cap : Option (JStr → JStr → JStr → JStr → VerifyResLive)) (now : Nat)
       (st : LiveState) (e : Envelope) (parsed : List (JStr × JStr)),
       PassesGatesLive topic e parsed →
       jsTrim e.address ++ ':' :: nonceOf parsed ∉ st.seenMsgIds →
       st.seenMsgIds.length ≤ 2500 →
       (handleInboundLive topic cap now st e).1.seenMsgIds =
         st.seenMsgIds ++ [jsTrim e.address ++ ':' :: nonceOf parsed]) := by
  refine ⟨?_, ?_, ?_⟩
  · intro topic selfAddr pow verify now st e parsed h hv
    rw [handleInbound_gates topic selfAddr pow verify now st e parsed h]
    dsimp only
    rw [if_pos hv]
    rfl
  · intro topic selfAddr pow verify now st e parsed h hid
    rw [handleInbound_gates topic selfAddr pow verify now st e parsed h.1]
    dsimp only
    rw [if_neg (by simp [h.2])]
    have := afterVerify_seen selfAddr now
      { st with rxStats := { st.rxStats with total := st.rxStats.total + 1 } }
      parsed (jsTrim e.address) (nonceOf parsed)
      (verify e.payload (jsTrim e.signatureB64) (jsTrim e.pubkeyB64) (jsTrim e.address))
      (by simpa [canonOf] using hid)
    simpa [canonOf] using this
  · intro topic cap now st e parsed h hid hlen
    rw [handleInboundLive_gates topic cap now st e parsed h]
    dsimp only
    rw [if_neg hid]
    rw [if_neg (show ¬ st.seenMsgIds.length > 2500 by omega)]
    split
    · rfl
    · split
      · rfl
      · split
        · rfl
        · rfl

/-- Counterexample for C1 as stated: in the live surface a concrete envelope
claiming address `alice` has the dedup identity `alice:n1` recorded even
though signature verification fails, and when verification succeeds with
derived (canonical) address `bob` the recorded identity is still keyed by
the claimed `alice`, not the canonical `bob`. -/
theorem c1_counterexample :
    (handleInboundLive (jstr "t") (some fun _ _ _ _ => ⟨false, false, jstr "bob", []⟩) 5000
       initLiveState
       ⟨jstr "pubsub_livegame|v1|join|nonce=n1|room=t", jstr "alice", jstr "pk",
        jstr "sg"⟩).1.seenMsgIds = [jstr "alice:n1"] ∧
    (handleInboundLive (jstr "t") (some fun _ _ _ _ => ⟨false, false, jstr "bob", []⟩) 5000
       initLiveState
       ⟨jstr "pubsub_livegame|v1|join|nonce=n1|room=t", jstr "alice", jstr "pk",
        jstr "sg"⟩).2 = LiveOutcome.badSig ∧
    (handleInboundLive (jstr "t") (some fun _ _ _ _ => ⟨true, true, jstr "bob", []⟩) 5000
       initLiveState
       ⟨jstr "pubsub_livegame|v1|join|nonce=n1|room=t", jstr "alice", jstr "pk",
        jstr "sg"⟩).1.seenMsgIds = [jstr "alice:n1"] := by
  refine ⟨by decide, by decide, by decide⟩

/-- Witness for C1 (amended) at concrete envelopes and oracles. -/
theorem c1_message_identity_amended_witness :
    ((handleInbound (jstr "t") [] refPow (fun _ _ _ _ => ⟨false, false, false, [], []⟩) 5000
       initChatState
       ⟨jstr "pubsub_chat|v1|msg|nonce=n1|room=t|text=hi", jstr "alice", jstr "pk",
        jstr "sg"⟩).1.seenMsgIds = initChatState.seenMsgIds) ∧
    ((handleInbound (jstr "t") [] refPow refVerify 5000 initChatState
       ⟨jstr "pubsub_chat|v1|msg|nonce=n1|room=t|text=hi", jstr "alice", jstr "pk",
        jstr "sg"⟩).1.seenMsgIds =
      initChatState.seenMsgIds ++
        [canonOf refVerify ⟨jstr "pubsub_chat|v1|msg|nonce=n1|room=t|text=hi", jstr "alice",
          jstr "pk", jstr "sg"⟩ ++ ':' ::
          nonceOf ((jstr "type", jstr "msg") :: (jstr "nonce", jstr "n1") ::
            (jstr "room", jstr "t") :: [(jstr "text", jstr "hi")])]) ∧
    ((handleInboundLive (jstr "t") none 5000 initLiveState
       ⟨jstr "pubsub_livegame|v1|join|nonce=n1|room=t", jstr "alice", jstr "pk",
        jstr "sg"⟩).1.seenMsgIds =
      initLiveState.seenMsgIds ++
        [jsTrim (jstr "alice") ++ ':' ::
          nonceOf ((jstr "type", jstr "join") :: (jstr "nonce", jstr "n1") ::
            [(jstr "room", jstr "t")])]) :=
  ⟨c1_message_identity_amended.1 (jstr "t") [] refPow
      (fun _ _ _ _ => ⟨false, false, false, [], []⟩) 5000 initChatState
      ⟨jstr "pubsub_chat|v1|msg|nonce=n1|room=t|text=hi", jstr "alice", jstr "pk", jstr "sg"⟩
      ((jstr "type", jstr "msg") :: (jstr "nonce", jstr "n1") ::
        (jstr "room", jstr "t") :: [(jstr "text", jstr "hi")])
      (by refine ⟨by decide, by decide, by decide, by decide, by decide, by decide,
        by decide, by decide, by decide⟩) (by decide),
   c1_message_identity_amended.2.1 (jstr "t") [] refPow refVerify 5000 initChatState
      ⟨jstr "pubsub_chat|v1|msg|nonce=n1|room=t|text=hi", jstr "alice", jstr "pk", jstr "sg"⟩
      ((jstr "type", jstr "msg") :: (jstr "nonce", jstr "n1") ::
        (jstr "room", jstr "t") :: [(jstr "text", jstr "hi")])
      ⟨by refine ⟨by decide, by decide, by decide, by decide, by decide, by decide,
        by decide, by decide, by decide⟩, by decide⟩ (by decide),
   c1_message_identity_amended.2.2 (jstr "t") none 5000 initLiveState
      ⟨jstr "pubsub_livegame|v1|join|nonce=n1|room=t", jstr "alice", jstr "pk", jstr "sg"⟩
      ((jstr "type", jstr "join") :: (jstr "nonce", jstr "n1") :: [(jstr "room", jstr "t")])
      (by refine ⟨by decide, by decide, by decide, by decide, by decide, by decide,
        by decide, by decide⟩) (by decide) (by decide)⟩
theorem mapSet_nil {α : Type} (k : JStr) (v : α) : mapSet [] k v = [(k, v)] := by
  simp [mapSet]

theorem mapGet_cons_self {α : Type} (k : JStr) (v : α) (m : List (JStr × α)) :
    mapGet ((k, v) :: m) k = some v := by
  simp [mapGet]

theorem mapGet_any_false {α : Type} (m : List (JStr × α)) (k : JStr)
    (h : m.any (fun p => decide (p.1 = k)) = false) : mapGet m k = none := by
  induction m with
  | nil => rfl
  | cons p rest ih =>
    simp only [List.any_cons, Bool.or_eq_false_iff] at h
    simp only [mapGet, List.find?_cons, h.1]
    exact ih h.2

theorem mapGet_set_self {α : Type} (m : List (JStr × α)) (k : JStr) (v : α) :
    mapGet (mapSet m k v) k = some v := by
  unfold mapSet
  cases ha : m.any (fun p => decide (p.1 = k)) with
  | false =>
    simp only [Bool.false_eq_true, if_false, ite_false]
    induction m with
    | nil => simp [mapGet]
    | cons p rest ih =>
      simp only [List.any_cons, Bool.or_eq_false_iff] at ha
      simp only [List.cons_append, mapGet, List.find?_cons, ha.1]
      exact ih ha.2
  | true =>
    simp only [if_true, ite_true]
    induction m with
    | nil => simp at ha
    | cons p rest ih =>
      by_cases hk : p.1 = k
      · simp [mapGet, List.find?_cons, hk]
      · simp only [List.any_cons, decide_eq_true_eq, hk, false_or] at ha
        simp only [List.map_cons, if_neg hk, mapGet, List.find?_cons]
        rw [show (decide (p.1 = k)) = false from by simp [hk]]
        exact ih ha

theorem msgId_inj_nonce (A n1 n2 : JStr) (h : n1 ≠ n2) :
    A ++ ':' :: n1 ≠ A ++ ':' :: n2 := by
  intro hc
  exact h (by simpa using List.append_cancel_left hc)
theorem CoreReady_empty (A nonce : JStr) (now : Nat) (st : ChatState)
    (hA0 : A ≠ []) (hAtr : jsTrim A = A) (hN0 : nonce ≠ []) (hNtr : jsTrim nonce = nonce)
    (hs : st.seenMsgIds = []) (hb : st.blockedByAddr = []) (hrn : st.recentNonces = [])
    (hsw : st.spamWindow = []) : CoreReady A nonce now st := by
  refine ⟨hA0, hAtr, hN0, hNtr, ?_, ?_, ?_, ?_, ?_⟩ <;>
    simp [hs, hb, hrn, hsw, mapGet, AUTO_BLOCK_MAX_MESSAGES]

theorem handleInbound_fresh_accept (topic selfAddr A : JStr) (pow : JStr → Except JStr Bool)
    (verify : JStr → JStr → JStr → JStr → VerifyRes) (now : Nat) (e : Envelope)
    (p : List (JStr × JStr))
    (h : PassesGates topic pow verify e p) (hA : canonOf verify e = A)
    (hA0 : A ≠ []) (hAtr : jsTrim A = A) (hnow : 1000 ≤ now)
    (hk : getStr p (jstr "type") = jstr "msg")
    (hx : jsTrim (getStr p (jstr "text")) ≠ [])
    (hxb : ¬ (jsTrim (getStr p (jstr "text"))).length > 500) :
    ∃ nm, handleInbound topic selfAddr pow verify now initChatState e =
      ({ messages := [⟨A ++ ':' :: nonceOf p, A, jsTrim (getStr p (jstr "text")),
          tsOf (getStr p (jstr "ts")) now⟩]
         nameByAddr := nm
         rxStats := ⟨1, 1, 0, []⟩
         blockedByAddr := []
         lastAcceptedAt := [(A, now)]
         recentNonces := [(A, [nonceOf p])]
         seenMsgIds := [A ++ ':' :: nonceOf p]
         spamWindow := [(A, [now])] },
       RxOutcome.accepted ⟨A ++ ':' :: nonceOf p, A, jsTrim (getStr p (jstr "text")),
         tsOf (getStr p (jstr "ts")) now⟩) := by
  obtain ⟨⟨h1, h2, h3, h4, hdec, hroom, hn1, hn2, hpow⟩, hv⟩ := h
  have hA' : jsOr (verify e.payload (jsTrim e.signatureB64) (jsTrim e.pubkeyB64)
      (jsTrim e.address)).derivedAddress (jsTrim e.address) = A := by
    simpa [canonOf] using hA
  obtain ⟨nm, hready⟩ := afterVerify_ready selfAddr now
    { initChatState with rxStats :=
        { initChatState.rxStats with total := initChatState.rxStats.total + 1 } }
    p (jsTrim e.address) A
    (verify e.payload (jsTrim e.signatureB64) (jsTrim e.pubkeyB64) (jsTrim e.address))
    hA' (CoreReady_empty A (nonceOf p) now _ hA0 hAtr hn1 (jsTrim_idem _) rfl rfl rfl rfl)
  refine ⟨nm, ?_⟩
  rw [handleInbound_gates topic selfAddr pow verify now initChatState e p
    ⟨h1, h2, h3, h4, hdec, hroom, hn1, hn2, hpow⟩]
  dsimp only
  rw [if_neg (by simp [hv])]
  rw [hready]
  dsimp only
  simp only [initChatState, mapGet, List.find?_nil, Option.map_none', Option.getD_none,
    Nat.sub_zero]
  rw [if_neg (by omega)]
  rw [hk]
  rw [if_neg (by decide)]
  rw [if_neg (by decide)]
  rw [if_neg hx, if_neg hxb]
  simp [accStat, pushMessage, dropStat, mapSet, tsOf]
theorem handleInbound_second (topic selfAddr A : JStr) (pow : JStr → Except JStr Bool)
    (verify : JStr → JStr → JStr → JStr → VerifyRes) (t1 t2 : Nat) (e : Envelope)
    (p : List (JStr × JStr)) (msgs : List ChatMsg) (nm : List (JStr × JStr)) (rx : RxStats)
    (n1 : JStr) (st1 : ChatState)
    (hst1 : st1 =
      { messages := msgs
        nameByAddr := nm
        rxStats := rx
        blockedByAddr := []
        lastAcceptedAt := [(A, t1)]
        recentNonces := [(A, [n1])]
        seenMsgIds := [A ++ ':' :: n1]
        spamWindow := [(A, [t1])] })
    (h : PassesGates topic pow verify e p) (hA : canonOf verify e = A)
    (hA0 : A ≠ []) (hAtr : jsTrim A = A) (hne : nonceOf p ≠ n1) (hwin : t2 - t1 < 2000) :
    (t2 - t1 < 1000 →
      (handleInbound topic selfAddr pow verify t2 st1 e).2 =
        RxOutcome.dropped (jstr "rate_limited") ∧
      (handleInbound topic selfAddr pow verify t2 st1 e).1.lastAcceptedAt = [(A, t1)] ∧
      (handleInbound topic selfAddr pow verify t2 st1 e).1.messages = msgs) ∧
    (¬ t2 - t1 < 1000 → getStr p (jstr "type") = jstr "msg" →
      jsTrim (getStr p (jstr "text")) ≠ [] →
      ¬ (jsTrim (getStr p (jstr "text"))).length > 500 →
      (handleInbound topic selfAddr pow verify t2 st1 e).2 =
        RxOutcome.accepted ⟨A ++ ':' :: nonceOf p, A, jsTrim (getStr p (jstr "text")),
          tsOf (getStr p (jstr "ts")) t2⟩) := by
  subst hst1
  obtain ⟨⟨h1, h2, h3, h4, hdec, hroom, hn1, hn2, hpow⟩, hv⟩ := h
  have hA' : jsOr (verify e.payload (jsTrim e.signatureB64) (jsTrim e.pubkeyB64)
      (jsTrim e.address)).derivedAddress (jsTrim e.address) = A := by
    simpa [canonOf] using hA
  obtain ⟨nm2, hready⟩ := afterVerify_ready selfAddr t2
    { messages := msgs
      nameByAddr := nm
      rxStats := { rx with total := rx.total + 1 }
      blockedByAddr := []
      lastAcceptedAt := [(A, t1)]
      recentNonces := [(A, [n1])]
      seenMsgIds := [A ++ ':' :: n1]
      spamWindow := [(A, [t1])] }
    p (jsTrim e.address) A
    (verify e.payload (jsTrim e.signatureB64) (jsTrim e.pubkeyB64) (jsTrim e.address))
    hA' (by
      refine ⟨hA0, hAtr, hn1, jsTrim_idem _, ?_, ?_, ?_, ?_, ?_⟩
      · simpa using msgId_inj_nonce A (nonceOf p) n1 hne
      · rfl
      · simpa [mapGet_cons_self] using hne
      · simp [mapGet_cons_self]
      · simp [mapGet_cons_self, AUTO_BLOCK_WINDOW_MS, AUTO_BLOCK_MAX_MESSAGES, hwin])
  have hmain : handleInbound topic selfAddr pow verify t2
      { messages := msgs
        nameByAddr := nm
        rxStats := rx
        blockedByAddr := []
        lastAcceptedAt := [(A, t1)]
        recentNonces := [(A, [n1])]
        seenMsgIds := [A ++ ':' :: n1]
        spamWindow := [(A, [t1])] } e =
      afterVerify selfAddr t2
        { messages := msgs
          nameByAddr := nm
          rxStats := { rx with total := rx.total + 1 }
          blockedByAddr := []
          lastAcceptedAt := [(A, t1)]
          recentNonces := [(A, [n1])]
          seenMsgIds := [A ++ ':' :: n1]
          spamWindow := [(A, [t1])] }
        p (jsTrim e.address) (nonceOf p)
        (verify e.payload (jsTrim e.signatureB64) (jsTrim e.pubkeyB64) (jsTrim e.address)) := by
    rw [handleInbound_gates topic selfAddr pow verify t2 _ e p
      ⟨h1, h2, h3, h4, hdec, hroom, hn1, hn2, hpow⟩]
    dsimp only
    rw [if_neg (by simp [hv])]
  constructor
  · intro hrate
    rw [hmain, hready]
    dsimp only
    simp only [mapGet_cons_self, Option.getD_some]
    rw [if_pos hrate]
    exact ⟨rfl, rfl, rfl⟩
  · intro hrate hk hx hxb
    rw [hmain, hready]
    dsimp only
    simp only [mapGet_cons_self, Option.getD_some]
    rw [if_neg hrate]
    rw [hk]
    rw [if_neg (by decide), if_neg (by decide), if_neg hx, if_neg hxb]
/-- Claim C3: per-address acceptance throttle.  From a fresh session, two
valid, distinct-nonce envelopes from one canonical address arriving 500 ms
apart: the first is accepted and the second is dropped with reason
`rate_limited`; arriving 1100 ms apart, both are accepted. -/
theorem c3_rate_limiting (topic selfAddr A : JStr) (pow : JStr → Except JStr Bool)
    (verify : JStr → JStr → JStr → JStr → VerifyRes) (t1 : Nat) (e1 e2 : Envelope)
    (p1 p2 : List (JStr × JStr))
    (h1 : PassesGates topic pow verify e1 p1) (h2 : PassesGates topic pow verify e2 p2)
    (hA1 : canonOf verify e1 = A) (hA2 : canonOf verify e2 = A)
    (hA0 : A ≠ []) (hAtr : jsTrim A = A)
    (hne : nonceOf p2 ≠ nonceOf p1) (ht1 : 1000 ≤ t1)
    (hk1 : getStr p1 (jstr "type") = jstr "msg")
    (hx1 : jsTrim (getStr p1 (jstr "text")) ≠ [])
    (hxb1 : ¬ (jsTrim (getStr p1 (jstr "text"))).length > 500)
    (hk2 : getStr p2 (jstr "type") = jstr "msg")
    (hx2 : jsTrim (getStr p2 (jstr "text")) ≠ [])
    (hxb2 : ¬ (jsTrim (getStr p2 (jstr "text"))).length > 500) :
    (∃ m1, (handleInbound topic selfAddr pow verify t1 initChatState e1).2 =
      RxOutcome.accepted m1) ∧
    (handleInbound topic selfAddr pow verify (t1 + 500)
      (handleInbound topic selfAddr pow verify t1 initChatState e1).1 e2).2 =
      RxOutcome.dropped (jstr "rate_limited") ∧
    (∃ m2, (handleInbound topic selfAddr pow verify (t1 + 1100)
      (handleInbound topic selfAddr pow verify t1 initChatState e1).1 e2).2 =
      RxOutcome.accepted m2) := by
  obtain ⟨nm, hfresh⟩ := handleInbound_fresh_accept topic selfAddr A pow verify t1 e1 p1
    h1 hA1 hA0 hAtr ht1 hk1 hx1 hxb1
  have hst1 : (handleInbound topic selfAddr pow verify t1 initChatState e1).1 =
      { messages := [⟨A ++ ':' :: nonceOf p1, A, jsTrim (getStr p1 (jstr "text")),
          tsOf (getStr p1 (jstr "ts")) t1⟩]
        nameByAddr := nm
        rxStats := ⟨1, 1, 0, []⟩
        blockedByAddr := []
        lastAcceptedAt := [(A, t1)]
        recentNonces := [(A, [nonceOf p1])]
        seenMsgIds := [A ++ ':' :: nonceOf p1]
        spamWindow := [(A, [t1])] } := by rw [hfresh]
  refine ⟨⟨_, by rw [hfresh]⟩, ?_, ?_⟩
  · exact ((handleInbound_second topic selfAddr A pow verify t1 (t1 + 500) e2 p2 _ _ _
      (nonceOf p1) _ hst1 h2 hA2 hA0 hAtr hne (by omega)).1 (by omega)).1
  · exact ⟨_, (handleInbound_second topic selfAddr A pow verify t1 (t1 + 1100) e2 p2 _ _ _
      (nonceOf p1) _ hst1 h2 hA2 hA0 hAtr hne (by omega)).2 (by omega) hk2 hx2 hxb2⟩

/-- Witness for C3 at concrete envelopes, oracles and times. -/
theorem c3_rate_limiting_witness :
    (∃ m1, (handleInbound (jstr "t") [] refPow refVerify 100000 initChatState
      ⟨jstr "pubsub_chat|v1|msg|nonce=n1|room=t|text=hi", jstr "alice", jstr "pk",
       jstr "sg"⟩).2 = RxOutcome.accepted m1) ∧
    (handleInbound (jstr "t") [] refPow refVerify 100500
      (handleInbound (jstr "t") [] refPow refVerify 100000 initChatState
        ⟨jstr "pubsub_chat|v1|msg|nonce=n1|room=t|text=hi", jstr "alice", jstr "pk",
         jstr "sg"⟩).1
      ⟨jstr "pubsub_chat|v1|msg|nonce=n2|room=t|text=hi", jstr "alice", jstr "pk",
       jstr "sg"⟩).2 = RxOutcome.dropped (jstr "rate_limited") ∧
    (∃ m2, (handleInbound (jstr "t") [] refPow refVerify 101100
      (handleInbound (jstr "t") [] refPow refVerify 100000 initChatState
        ⟨jstr "pubsub_chat|v1|msg|nonce=n1|room=t|text=hi", jstr "alice", jstr "pk",
         jstr "sg"⟩).1
      ⟨jstr "pubsub_chat|v1|msg|nonce=n2|room=t|text=hi", jstr "alice", jstr "pk",
       jstr "sg"⟩).2 = RxOutcome.accepted m2) := by
  have h := c3_rate_limiting (jstr "t") [] (jstr "alice") refPow refVerify 100000
    ⟨jstr "pubsub_chat|v1|msg|nonce=n1|room=t|text=hi", jstr "alice", jstr "pk", jstr "sg"⟩
    ⟨jstr "pubsub_chat|v1|msg|nonce=n2|room=t|text=hi", jstr "alice", jstr "pk", jstr "sg"⟩
    ((jstr "type", jstr "msg") :: (jstr "nonce", jstr "n1") ::
      (jstr "room", jstr "t") :: [(jstr "text", jstr "hi")])
    ((jstr "type", jstr "msg") :: (jstr "nonce", jstr "n2") ::
      (jstr "room", jstr "t") :: [(jstr "text", jstr "hi")])
    ⟨by refine ⟨by decide, by decide, by decide, by decide, by decide, by decide,
        by decide, by decide, by decide⟩, by decide⟩
    ⟨by refine ⟨by decide, by decide, by decide, by decide, by decide, by decide,
        by decide, by decide, by decide⟩, by decide⟩
    (by decide) (by decide) (by decide) (by decide) (by decide) (by omega)
    (by decide) (by decide) (by decide) (by decide) (by decide) (by decide)
  exact h
theorem handleInbound_fresh_typedrop (topic selfAddr A : JStr)
    (pow : JStr → Except JStr Bool) (verify : JStr → JStr → JStr → JStr → VerifyRes)
    (now : Nat) (e : Envelope) (p : List (JStr × JStr))
    (h : PassesGates topic pow verify e p) (hA : canonOf verify e = A)
    (hA0 : A ≠ []) (hAtr : jsTrim A = A) (hnow : 1000 ≤ now)
    (hkind : (getStr p (jstr "type") ≠ jstr "profile" ∧ getStr p (jstr "type") ≠ jstr "msg") ∨
      (getStr p (jstr "type") = jstr "msg" ∧ jsTrim (getStr p (jstr "text")) = []) ∨
      (getStr p (jstr "type") = jstr "msg" ∧ (jsTrim (getStr p (jstr "text"))).length > 500)) :
    ∃ nm r, (r = jstr "unknown_type" ∨ r = jstr "empty_text" ∨ r = jstr "text_too_long") ∧
      handleInbound topic selfAddr pow verify now initChatState e =
      ({ messages := []
         nameByAddr := nm
         rxStats := ⟨1, 0, 1, r⟩
         blockedByAddr := []
         lastAcceptedAt := [(A, now)]
         recentNonces := [(A, [nonceOf p])]
         seenMsgIds := [A ++ ':' :: nonceOf p]
         spamWindow := [(A, [now])] },
       RxOutcome.dropped r) := by
  obtain ⟨⟨h1, h2, h3, h4, hdec, hroom, hn1, hn2, hpow⟩, hv⟩ := h
  have hA' : jsOr (verify e.payload (jsTrim e.signatureB64) (jsTrim e.pubkeyB64)
      (jsTrim e.address)).derivedAddress (jsTrim e.address) = A := by
    simpa [canonOf] using hA
  obtain ⟨nm, hready⟩ := afterVerify_ready selfAddr now
    { initChatState with rxStats :=
        { initChatState.rxStats with total := initChatState.rxStats.total + 1 } }
    p (jsTrim e.address) A
    (verify e.payload (jsTrim e.signatureB64) (jsTrim e.pubkeyB64) (jsTrim e.address))
    hA' (CoreReady_empty A (nonceOf p) now _ hA0 hAtr hn1 (jsTrim_idem _) rfl rfl rfl rfl)
  have hmain : handleInbound topic selfAddr pow verify now initChatState e =
      afterVerify selfAddr now
        { initChatState with rxStats :=
            { initChatState.rxStats with total := initChatState.rxStats.total + 1 } }
        p (jsTrim e.address) (nonceOf p)
        (verify e.payload (jsTrim e.signatureB64) (jsTrim e.pubkeyB64) (jsTrim e.address)) := by
    rw [handleInbound_gates topic selfAddr pow verify now initChatState e p
      ⟨h1, h2, h3, h4, hdec, hroom, hn1, hn2, hpow⟩]
    dsimp only
    rw [if_neg (by simp [hv])]
  rcases hkind with ⟨hkp, hkm⟩ | ⟨hkm, hte⟩ | ⟨hkm, htl⟩
  · refine ⟨nm, jstr "unknown_type", Or.inl rfl, ?_⟩
    rw [hmain, hready]
    dsimp only
    simp only [initChatState, mapGet, List.find?_nil, Option.map_none', Option.getD_none,
      Nat.sub_zero]
    rw [if_neg (by omega)]
    rw [if_neg hkp, if_pos hkm]
    simp [dropStat, mapSet, accStat]
  · refine ⟨nm, jstr "empty_text", Or.inr (Or.inl rfl), ?_⟩
    rw [hmain, hready]
    dsimp only
    simp only [initChatState, mapGet, List.find?_nil, Option.map_none', Option.getD_none,
      Nat.sub_zero]
    rw [if_neg (by omega)]
    rw [hkm]
    rw [if_neg (by decide), if_neg (by decide), if_pos hte]
    simp [dropStat, mapSet, accStat]
  · refine ⟨nm, jstr "text_too_long", Or.inr (Or.inr rfl), ?_⟩
    rw [hmain, hready]
    dsimp only
    simp only [initChatState, mapGet, List.find?_nil, Option.map_none', Option.getD_none,
      Nat.sub_zero]
    rw [if_neg (by omega)]
    rw [hkm]
    rw [if_neg (by decide), if_neg (by decide),
      if_neg (show ¬ jsTrim (getStr p (jstr "text")) = [] by
        intro hz
        rw [hz] at htl
        simp at htl), if_pos htl]
    simp [dropStat, mapSet, accStat]
/-- Claim C10: an envelope that clears every gate through the rate limit and
is then dropped by type-specific validation (unknown type, empty text, or
over-long text) still consumes the address's one-per-second admission slot:
the per-address last-accepted timestamp is updated to its arrival time, and
an otherwise-valid envelope from the same address arriving less than
1000 ms later is dropped with reason `rate_limited`. -/
theorem c10_typedrop_consumes_slot (topic selfAddr A : JStr)
    (pow : JStr → Except JStr Bool) (verify : JStr → JStr → JStr → JStr → VerifyRes)
    (t1 t2 : Nat) (e1 e2 : Envelope) (p1 p2 : List (JStr × JStr))
    (h1 : PassesGates topic pow verify e1 p1) (h2 : PassesGates topic pow verify e2 p2)
    (hA1 : canonOf verify e1 = A) (hA2 : canonOf verify e2 = A)
    (hA0 : A ≠ []) (hAtr : jsTrim A = A)
    (hne : nonceOf p2 ≠ nonceOf p1) (ht1 : 1000 ≤ t1)
    (ht2 : t1 ≤ t2) (hlt : t2 - t1 < 1000)
    (hkind : (getStr p1 (jstr "type") ≠ jstr "profile" ∧
        getStr p1 (jstr "type") ≠ jstr "msg") ∨
      (getStr p1 (jstr "type") = jstr "msg" ∧ jsTrim (getStr p1 (jstr "text")) = []) ∨
      (getStr p1 (jstr "type") = jstr "msg" ∧
        (jsTrim (getStr p1 (jstr "text"))).length > 500)) :
    (∃ r, (r = jstr "unknown_type" ∨ r = jstr "empty_text" ∨ r = jstr "text_too_long") ∧
      (handleInbound topic selfAddr pow verify t1 initChatState e1).2 =
        RxOutcome.dropped r) ∧
    (handleInbound topic selfAddr pow verify t1 initChatState e1).1.lastAcceptedAt =
      [(A, t1)] ∧
    (handleInbound topic selfAddr pow verify t2
      (handleInbound topic selfAddr pow verify t1 initChatState e1).1 e2).2 =
      RxOutcome.dropped (jstr "rate_limited") := by
  obtain ⟨nm, r, hr, hfresh⟩ := handleInbound_fresh_typedrop topic selfAddr A pow verify t1
    e1 p1 h1 hA1 hA0 hAtr ht1 hkind
  have hst1 : (handleInbound topic selfAddr pow verify t1 initChatState e1).1 =
      { messages := []
        nameByAddr := nm
        rxStats := ⟨1, 0, 1, r⟩
        blockedByAddr := []
        lastAcceptedAt := [(A, t1)]
        recentNonces := [(A, [nonceOf p1])]
        seenMsgIds := [A ++ ':' :: nonceOf p1]
        spamWindow := [(A, [t1])] } := by rw [hfresh]
  refine ⟨⟨r, hr, by rw [hfresh]⟩, by rw [hst1], ?_⟩
  exact ((handleInbound_second topic selfAddr A pow verify t1 t2 e2 p2 _ _ _
    (nonceOf p1) _ hst1 h2 hA2 hA0 hAtr hne (by omega)).1 hlt).1

/-- Witness for C10 at concrete envelopes (the first of unknown type). -/
theorem c10_typedrop_consumes_slot_witness :
    (∃ r, (r = jstr "unknown_type" ∨ r = jstr "empty_text" ∨ r = jstr "text_too_long") ∧
      (handleInbound (jstr "t") [] refPow refVerify 100000 initChatState
        ⟨jstr "pubsub_chat|v1|zzz|nonce=n1|room=t", jstr "alice", jstr "pk",
         jstr "sg"⟩).2 = RxOutcome.dropped r) ∧
    (handleInbound (jstr "t") [] refPow refVerify 100000 initChatState
      ⟨jstr "pubsub_chat|v1|zzz|nonce=n1|room=t", jstr "alice", jstr "pk",
       jstr "sg"⟩).1.lastAcceptedAt = [(jstr "alice", 100000)] ∧
    (handleInbound (jstr "t") [] refPow refVerify 100600
      (handleInbound (jstr "t") [] refPow refVerify 100000 initChatState
        ⟨jstr "pubsub_chat|v1|zzz|nonce=n1|room=t", jstr "alice", jstr "pk",
         jstr "sg"⟩).1
      ⟨jstr "pubsub_chat|v1|msg|nonce=n2|room=t|text=hi", jstr "alice", jstr "pk",
       jstr "sg"⟩).2 = RxOutcome.dropped (jstr "rate_limited") :=
  c10_typedrop_consumes_slot (jstr "t") [] (jstr "alice") refPow refVerify 100000 100600
    ⟨jstr "pubsub_chat|v1|zzz|nonce=n1|room=t", jstr "alice", jstr "pk", jstr "sg"⟩
    ⟨jstr "pubsub_chat|v1|msg|nonce=n2|room=t|text=hi", jstr "alice", jstr "pk", jstr "sg"⟩
    ((jstr "type", jstr "zzz") :: (jstr "nonce", jstr "n1") :: [(jstr "room", jstr "t")])
    ((jstr "type", jstr "msg") :: (jstr "nonce", jstr "n2") ::
      (jstr "room", jstr "t") :: [(jstr "text", jstr "hi")])
    ⟨by refine ⟨by decide, by decide, by decide, by decide, by decide, by decide,
        by decide, by decide, by decide⟩, by decide⟩
    ⟨by refine ⟨by decide, by decide, by decide, by decide, by decide, by decide,
        by decide, by decide, by decide⟩, by decide⟩
    (by decide) (by decide) (by decide) (by decide) (by decide) (by omega) (by omega)
    (by omega) (Or.inl ⟨by decide, by decide⟩)
/-- Claim C9: in the live-presence surface, when the host signature
verification capability is absent, an inbound envelope is treated as
provisionally valid (the fallback result has `signatureValid` set), and —
because the fallback's derived address is empty — the address claimed in
the envelope becomes the canonical address downstream: the peers map entry
produced by a `join` is keyed by the trimmed claimed address. -/
theorem c9_live_fallback (topic : JStr) (now : Nat) (st : LiveState) (e : Envelope)
    (parsed : List (JStr × JStr)) (h : PassesGatesLive topic e parsed)
    (hid : jsTrim e.address ++ ':' :: nonceOf parsed ∉ st.seenMsgIds)
    (hjoin : getStr parsed (jstr "type") = jstr "join") :
    (handleInboundLive topic none now st e).2 = LiveOutcome.joined (jsTrim e.address) ∧
    mapGet (handleInboundLive topic none now st e).1.peers (jsTrim e.address) =
      some ⟨jsOr ((getStr parsed (jstr "nick")).take 22) (jstr "player"), now⟩ := by
  rw [handleInboundLive_gates topic none now st e parsed h]
  dsimp only
  rw [if_neg hid]
  simp only [verifyPayloadLive]
  rw [if_neg (by decide)]
  have hcanon : jsOr ([] : JStr) (jsTrim e.address) = jsTrim e.address := by simp [jsOr]
  rw [hcanon, if_pos hjoin]
  exact ⟨rfl, mapGet_set_self _ _ _⟩

/-- Witness for C9 at a concrete join envelope with no verification
capability. -/
theorem c9_live_fallback_witness :
    (handleInboundLive (jstr "t") none 5000 initLiveState
      ⟨jstr "pubsub_livegame|v1|join|nick=bob|nonce=n1|room=t", jstr "alice", jstr "pk",
       jstr "sg"⟩).2 = LiveOutcome.joined (jsTrim (jstr "alice")) ∧
    mapGet (handleInboundLive (jstr "t") none 5000 initLiveState
      ⟨jstr "pubsub_livegame|v1|join|nick=bob|nonce=n1|room=t", jstr "alice", jstr "pk",
       jstr "sg"⟩).1.peers (jsTrim (jstr "alice")) =
      some ⟨jsOr ((getStr ((jstr "type", jstr "join") :: (jstr "nick", jstr "bob") ::
        (jstr "nonce", jstr "n1") :: [(jstr "room", jstr "t")]) (jstr "nick")).take 22)
        (jstr "player"), 5000⟩ :=
  c9_live_fallback (jstr "t") 5000 initLiveState
    ⟨jstr "pubsub_livegame|v1|join|nick=bob|nonce=n1|room=t", jstr "alice", jstr "pk",
     jstr "sg"⟩
    ((jstr "type", jstr "join") :: (jstr "nick", jstr "bob") ::
      (jstr "nonce", jstr "n1") :: [(jstr "room", jstr "t")])
    (by refine ⟨by decide, by decide, by decide, by decide, by decide, by decide,
      by decide, by decide⟩) (by decide) (by decide)
theorem handleInboundLive_seen_step (topic : JStr)
    (cap : Option (JStr → JStr → JStr → JStr → VerifyResLive)) (now : Nat)
    (st : LiveState) (e : Envelope) :
    (handleInboundLive topic cap now st e).1.seenMsgIds = st.seenMsgIds ∨
    ∃ id, (handleInboundLive topic cap now st e).1.seenMsgIds =
      (if st.seenMsgIds.length > 2500 then st.seenMsgIds.drop 1200
       else st.seenMsgIds) ++ [id] := by
  unfold handleInboundLive
  dsimp only
  split
  · exact Or.inl rfl
  · split
    · exact Or.inl rfl
    · exact Or.inl rfl
    · rename_i parsed heqdec
      split
      · exact Or.inl rfl
      · split
        · exact Or.inl rfl
        · split
          · exact Or.inl rfl
          · refine Or.inr ⟨jsTrim e.address ++ ':' :: jsTrim (getStr parsed (jstr "nonce")), ?_⟩
            by_cases hl : st.seenMsgIds.length > 2500
            · simp only [if_pos hl]
              split
              · rfl
              · split
                · rfl
                · split
                  · rfl
                  · rfl
            · simp only [if_neg hl]
              split
              · rfl
              · split
                · rfl
                · split
                  · rfl
                  · rfl

theorem handleInbound_seen_step (topic selfAddr : JStr) (pow : JStr → Except JStr Bool)
    (verify : JStr → JStr → JStr → JStr → VerifyRes) (now : Nat) (st : ChatState)
    (e : Envelope) :
    (handleInbound topic selfAddr pow verify now st e).1.seenMsgIds = st.seenMsgIds ∨
    ∃ id, (handleInbound topic selfAddr pow verify now st e).1.seenMsgIds =
      st.seenMsgIds ++ [id] := by
  unfold handleInbound
  dsimp only
  split
  · exact Or.inl rfl
  · split
    · exact Or.inl rfl
    · exact Or.inl rfl
    · split
      · exact Or.inl rfl
      · split
        · exact Or.inl rfl
        · split
          · exact Or.inl rfl
          · exact Or.inl rfl
          · split
            · exact Or.inl rfl
            · unfold afterVerify
              dsimp only
              split
              · exact Or.inl rfl
              · exact Or.inr ⟨_, by rw [postDedup_seen]⟩

theorem runLive_seen_bound (topic : JStr)
    (cap : Option (JStr → JStr → JStr → JStr → VerifyResLive))
    (es : List (Nat × Envelope)) (st : LiveState) (h : st.seenMsgIds.length ≤ 2501) :
    (runLive topic cap st es).seenMsgIds.length ≤ 2501 := by
  induction es generalizing st with
  | nil => exact h
  | cons te rest ih =>
    unfold runLive
    apply ih
    rcases handleInboundLive_seen_step topic cap te.1 st te.2 with hs | ⟨id, hs⟩
    · rw [hs]; exact h
    · rw [hs]
      by_cases hl : st.seenMsgIds.length > 2500
      · rw [if_pos hl]
        simp only [List.length_append, List.length_drop, List.length_cons,
          List.length_nil]
        omega
      · rw [if_neg hl]
        simp only [List.length_append, List.length_cons, List.length_nil]
        omega
theorem dropWhile_eq_self_of_all {α : Type} (p : α → Bool) (l : List α)
    (h : ∀ c ∈ l, p c = false) : l.dropWhile p = l := by
  cases l with
  | nil => rfl
  | cons a t => simp [List.dropWhile_cons, h a (by simp)]

theorem jsTrim_all_false (s : JStr) (h : ∀ c ∈ s, jsWhitespace c = false) : jsTrim s = s := by
  unfold jsTrim
  rw [dropWhile_eq_self_of_all _ _ h,
    dropWhile_eq_self_of_all _ _ (fun c hc => h c (by simpa using hc)),
    List.reverse_reverse]

theorem jsTrim_replicate_a (k : Nat) :
    jsTrim (List.replicate k 'a') = List.replicate k 'a' :=
  jsTrim_all_false _ (by
    intro c hc
    rw [List.eq_of_mem_replicate hc]
    rfl)

theorem runChat_append (topic selfAddr : JStr) (pow : JStr → Except JStr Bool)
    (verify : JStr → JStr → JStr → JStr → VerifyRes) (st : ChatState)
    (es fs : List (Nat × Envelope)) :
    runChat topic selfAddr pow verify st (es ++ fs) =
      runChat topic selfAddr pow verify (runChat topic selfAddr pow verify st es) fs := by
  induction es generalizing st with
  | nil => rfl
  | cons te rest ih =>
    obtain ⟨t, e⟩ := te
    show runChat topic selfAddr pow verify
      (handleInbound topic selfAddr pow verify t st e).1 (rest ++ fs) = _
    rw [ih]
    rfl

theorem runChat_flood (n : Nat) :
    (runChat (jstr "t") [] refPow refVerify initChatState (floodEnvelopes n)).seenMsgIds =
      (List.range n).map (fun i => List.replicate (i + 1) 'a' ++ ':' :: jstr "n") := by
  induction n with
  | zero => rfl
  | succ n ih =>
    have hsplit : floodEnvelopes (n + 1) =
        floodEnvelopes n ++ [(1000000, floodEnvelope n)] := by
      unfold floodEnvelopes
      rw [List.range_succ, List.map_append]
      rfl
    rw [hsplit, runChat_append]
    show (handleInbound (jstr "t") [] refPow refVerify 1000000
      (runChat (jstr "t") [] refPow refVerify initChatState (floodEnvelopes n))
      (floodEnvelope n)).1.seenMsgIds = _
    have haddr : jsTrim (floodEnvelope n).address = List.replicate (n + 1) 'a' :=
      jsTrim_replicate_a (n + 1)
    have hpre : PassesPreSig (jstr "t") refPow (floodEnvelope n)
        ((jstr "type", jstr "msg") :: (jstr "nonce", jstr "n") ::
          [(jstr "room", jstr "t")]) := by
      unfold PassesPreSig
      dsimp only [floodEnvelope]
      refine ⟨by decide, ?_, by decide, by decide, by decide, by decide, by decide,
        by decide, rfl⟩
      rw [jsTrim_replicate_a]
      simp
    rw [handleInbound_gates (jstr "t") [] refPow refVerify 1000000 _ (floodEnvelope n)
      ((jstr "type", jstr "msg") :: (jstr "nonce", jstr "n") :: [(jstr "room", jstr "t")])
      hpre]
    dsimp only
    rw [if_neg (by simp [refVerify])]
    have hid : jsOr (refVerify (floodEnvelope n).payload (jsTrim (floodEnvelope n).signatureB64)
        (jsTrim (floodEnvelope n).pubkeyB64) (jsTrim (floodEnvelope n).address)).derivedAddress
        (jsTrim (floodEnvelope n).address) ++ ':' ::
        nonceOf ((jstr "type", jstr "msg") :: (jstr "nonce", jstr "n") ::
          [(jstr "room", jstr "t")]) =
        List.replicate (n + 1) 'a' ++ ':' :: jstr "n" := by
      rw [haddr]
      show jsOr [] (List.replicate (n + 1) 'a') ++ ':' :: jsTrim (jstr "n") = _
      rw [show jsTrim (jstr "n") = jstr "n" from by decide]
      simp [jsOr]
    have hnotmem : jsOr (refVerify (floodEnvelope n).payload
        (jsTrim (floodEnvelope n).signatureB64) (jsTrim (floodEnvelope n).pubkeyB64)
        (jsTrim (floodEnvelope n).address)).derivedAddress
        (jsTrim (floodEnvelope n).address) ++ ':' ::
        nonceOf ((jstr "type", jstr "msg") :: (jstr "nonce", jstr "n") ::
          [(jstr "room", jstr "t")]) ∉
        ({ runChat (jstr "t") [] refPow refVerify initChatState (floodEnvelopes n) with
          rxStats := { (runChat (jstr "t") [] refPow refVerify initChatState
            (floodEnvelopes n)).rxStats with total := (runChat (jstr "t") [] refPow refVerify
            initChatState (floodEnvelopes n)).rxStats.total + 1 } } : ChatState).seenMsgIds := by
      rw [hid]
      show ¬ _ ∈ (runChat (jstr "t") [] refPow refVerify initChatState
        (floodEnvelopes n)).seenMsgIds
      rw [ih]
      intro hmem
      simp only [List.mem_map, List.mem_range] at hmem
      obtain ⟨i, hi, heq⟩ := hmem
      have hlen := congrArg List.length heq
      simp only [List.length_append, List.length_replicate, List.length_cons] at hlen
      omega
    rw [afterVerify_seen _ _ _ _ _ _ _ hnotmem, hid]
    show (runChat (jstr "t") [] refPow refVerify initChatState
      (floodEnvelopes n)).seenMsgIds ++ _ = _
    rw [ih, List.range_succ, List.map_append]
    rfl

/-- Counterexample for C8 as stated: the chat surface's global
seen-message-id set is not capped at any fixed size — for every candidate
cap, a flood of pairwise-distinct valid envelopes drives its cardinality
past the cap (the chat handler only ever appends to the set and never
evicts). -/
theorem c8_counterexample : ¬ chatSeenIdSetBounded := by
  rintro ⟨cap, hcap⟩
  have h := hcap (floodEnvelopes (cap + 1))
  rw [runChat_flood] at h
  simp only [List.length_map, List.length_range] at h
  omega
/-- Claim C8, amended.  Only the live surface's seen-message-id store is
capped: when its size exceeds 2500 the oldest 1200 entries are evicted
before the insert, so it never exceeds 2501 entries over any inbound
sequence.  The chat surface's seen-message-id store has no cap: every
inbound envelope either leaves it unchanged or appends one identity, and
nothing is ever evicted (its unboundedness is the content of the
counterexample). -/
theorem c8_seen_store_bounds :
    (∀ (topic : JStr) (cap : Option (JStr → JStr → JStr → JStr → VerifyResLive))
       (es : List (Nat × Envelope)),
       (runLive topic cap initLiveState es).seenMsgIds.length ≤ 2501) ∧
    (∀ (topic : JStr) (cap : Option (JStr → JStr → JStr → JStr → VerifyResLive))
       (now : Nat) (st : LiveState) (e : Envelope),
       (handleInboundLive topic cap now st e).1.seenMsgIds = st.seenMsgIds ∨
       ∃ id, (handleInboundLive topic cap now st e).1.seenMsgIds =
         (if st.seenMsgIds.length > 2500 then st.seenMsgIds.drop 1200
          else st.seenMsgIds) ++ [id]) ∧
    (∀ (topic selfAddr : JStr) (pow : JStr → Except JStr Bool)
       (verify : JStr → JStr → JStr → JStr → VerifyRes) (now : Nat) (st : ChatState)
       (e : Envelope),
       (handleInbound topic selfAddr pow verify now st e).1.seenMsgIds = st.seenMsgIds ∨
       ∃ id, (handleInbound topic selfAddr pow verify now st e).1.seenMsgIds =
         st.seenMsgIds ++ [id]) :=
  ⟨fun topic cap es => runLive_seen_bound topic cap es initLiveState (by
      show (List.length ([] : List JStr)) ≤ 2501
      simp),
   handleInboundLive_seen_step, handleInbound_seen_step⟩

theorem afterVerify_components (selfAddr : JStr) (now : Nat) (st : ChatState)
    (parsed : List (JStr × JStr)) (address A : JStr) (v : VerifyRes)
    (hA : jsOr v.derivedAddress address = A)
    (hr : CoreReady A (nonceOf parsed) now st) :
    (afterVerify selfAddr now st parsed address (nonceOf parsed) v).1.seenMsgIds =
      st.seenMsgIds ++ [A ++ ':' :: nonceOf parsed] ∧
    mapGet (afterVerify selfAddr now st parsed address (nonceOf parsed) v).1.recentNonces A =
      some ((mapGet st.recentNonces A).getD [] ++ [nonceOf parsed]) ∧
    mapGet (afterVerify selfAddr now st parsed address (nonceOf parsed) v).1.spamWindow A =
      some ((((mapGet st.spamWindow A).getD []).filter fun t =>
        decide (now - t < AUTO_BLOCK_WINDOW_MS)) ++ [now]) ∧
    (afterVerify selfAddr now st parsed address (nonceOf parsed) v).1.blockedByAddr =
      st.blockedByAddr := by
  obtain ⟨nm, h⟩ := afterVerify_ready selfAddr now st parsed address A v hA hr
  rw [h]
  dsimp only
  split
  · exact ⟨rfl, mapGet_set_self _ _ _, mapGet_set_self _ _ _, rfl⟩
  · split
    · exact ⟨rfl, mapGet_set_self _ _ _, mapGet_set_self _ _ _, rfl⟩
    · split
      · exact ⟨rfl, mapGet_set_self _ _ _, mapGet_set_self _ _ _, rfl⟩
      · split
        · exact ⟨rfl, mapGet_set_self _ _ _, mapGet_set_self _ _ _, rfl⟩
        · split
          · exact ⟨rfl, mapGet_set_self _ _ _, mapGet_set_self _ _ _, rfl⟩
          · exact ⟨rfl, mapGet_set_self _ _ _, mapGet_set_self _ _ _, rfl⟩
theorem c2_invariant (topic selfAddr A : JStr) (pow : JStr → Except JStr Bool)
    (verify : JStr → JStr → JStr → JStr → VerifyRes)
    (env : Nat → Envelope) (prs : Nat → List (JStr × JStr)) (tm : Nat → Nat)
    (h : ∀ i, i ≤ 10 → PassesGates topic pow verify (env i) (prs i))
    (hA : ∀ i, i ≤ 10 → canonOf verify (env i) = A)
    (hA0 : A ≠ []) (hAtr : jsTrim A = A)
    (hne : ∀ i j, i ≤ 10 → j ≤ 10 → i ≠ j → nonceOf (prs i) ≠ nonceOf (prs j))
    (hmono : ∀ i j, i ≤ j → j ≤ 10 → tm i ≤ tm j)
    (hwin : tm 10 - tm 0 < 2000) :
    ∀ k, k ≤ 10 →
      (runChat topic selfAddr pow verify initChatState
        ((List.range k).map fun i => (tm i, env i))).seenMsgIds =
        (List.range k).map (fun j => A ++ ':' :: nonceOf (prs j)) ∧
      (mapGet (runChat topic selfAddr pow verify initChatState
        ((List.range k).map fun i => (tm i, env i))).recentNonces A).getD [] =
        (List.range k).map (fun j => nonceOf (prs j)) ∧
      (mapGet (runChat topic selfAddr pow verify initChatState
        ((List.range k).map fun i => (tm i, env i))).spamWindow A).getD [] =
        (List.range k).map tm ∧
      (runChat topic selfAddr pow verify initChatState
        ((List.range k).map fun i => (tm i, env i))).blockedByAddr = [] := by
  intro k
  induction k with
  | zero =>
    intro _
    refine ⟨rfl, ?_, ?_, rfl⟩ <;> rfl
  | succ k ih =>
    intro hk1
    have hk : k ≤ 10 := by omega
    obtain ⟨ih1, ih2, ih3, ih4⟩ := ih hk
    have hsplit : (List.range (k + 1)).map (fun i => (tm i, env i)) =
        ((List.range k).map fun i => (tm i, env i)) ++ [(tm k, env k)] := by
      rw [List.range_succ, List.map_append]
      rfl
    rw [hsplit, runChat_append]
    have hgoal : runChat topic selfAddr pow verify
        (runChat topic selfAddr pow verify initChatState
          ((List.range k).map fun i => (tm i, env i))) [(tm k, env k)] =
        (handleInbound topic selfAddr pow verify (tm k)
          (runChat topic selfAddr pow verify initChatState
            ((List.range k).map fun i => (tm i, env i))) (env k)).1 := rfl
    rw [hgoal]
    obtain ⟨⟨g1, g2, g3, g4, gdec, groom, gn1, gn2, gpow⟩, gv⟩ := h k hk
    rw [handleInbound_gates topic selfAddr pow verify (tm k) _ (env k) (prs k)
      ⟨g1, g2, g3, g4, gdec, groom, gn1, gn2, gpow⟩]
    dsimp only
    rw [if_neg (by simp [gv])]
    have hA2 : jsOr (verify (env k).payload (jsTrim (env k).signatureB64)
        (jsTrim (env k).pubkeyB64) (jsTrim (env k).address)).derivedAddress
        (jsTrim (env k).address) = A := by
      simpa [canonOf] using hA k hk
    have hcore : CoreReady A (nonceOf (prs k)) (tm k)
        { runChat topic selfAddr pow verify initChatState
            ((List.range k).map fun i => (tm i, env i)) with
          rxStats := { (runChat topic selfAddr pow verify initChatState
              ((List.range k).map fun i => (tm i, env i))).rxStats with
            total := (runChat topic selfAddr pow verify initChatState
              ((List.range k).map fun i => (tm i, env i))).rxStats.total + 1 } } := by
      refine ⟨hA0, hAtr, gn1, jsTrim_idem _, ?_, ?_, ?_, ?_, ?_⟩
      · show A ++ ':' :: nonceOf (prs k) ∉ (runChat topic selfAddr pow verify initChatState
          ((List.range k).map fun i => (tm i, env i))).seenMsgIds
        rw [ih1]
        intro hmem
        simp only [List.mem_map, List.mem_range] at hmem
        obtain ⟨j, hj, heq⟩ := hmem
        exact msgId_inj_nonce A (nonceOf (prs j)) (nonceOf (prs k))
          (hne j k (by omega) hk (by omega)) heq
      · show mapGet (runChat topic selfAddr pow verify initChatState
          ((List.range k).map fun i => (tm i, env i))).blockedByAddr A = none
        rw [ih4]
        rfl
      · show nonceOf (prs k) ∉ (mapGet (runChat topic selfAddr pow verify initChatState
          ((List.range k).map fun i => (tm i, env i))).recentNonces A).getD []
        rw [ih2]
        intro hmem
        simp only [List.mem_map, List.mem_range] at hmem
        obtain ⟨j, hj, heq⟩ := hmem
        exact hne j k (by omega) hk (by omega) heq
      · show ((mapGet (runChat topic selfAddr pow verify initChatState
          ((List.range k).map fun i => (tm i, env i))).recentNonces A).getD []).length < 24
        rw [ih2]
        simp only [List.length_map, List.length_range]
        omega
      · show (((mapGet (runChat topic selfAddr pow verify initChatState
          ((List.range k).map fun i => (tm i, env i))).spamWindow A).getD []).filter
            fun t => decide (tm k - t < AUTO_BLOCK_WINDOW_MS)).length + 1 ≤
          AUTO_BLOCK_MAX_MESSAGES
        rw [ih3]
        have := List.length_filter_le (fun t => decide (tm k - t < AUTO_BLOCK_WINDOW_MS))
          ((List.range k).map tm)
        simp only [List.length_map, List.length_range] at this
        show _ + 1 ≤ 10
        omega
    obtain ⟨c1, c2, c3, c4⟩ := afterVerify_components selfAddr (tm k) _ (prs k)
      (jsTrim (env k).address) A _ hA2 hcore
    refine ⟨?_, ?_, ?_, ?_⟩
    · rw [c1]
      dsimp only
      rw [ih1, List.range_succ, List.map_append]
      rfl
    · rw [c2]
      dsimp only
      rw [Option.getD_some, ih2, List.range_succ, List.map_append]
      rfl
    · rw [c3]
      dsimp only
      rw [Option.getD_some, ih3]
      have hkeep : ((List.range k).map tm).filter
          (fun t => decide (tm k - t < AUTO_BLOCK_WINDOW_MS)) = (List.range k).map tm := by
        rw [List.filter_eq_self]
        intro t ht
        simp only [List.mem_map, List.mem_range] at ht
        obtain ⟨j, hj, rfl⟩ := ht
        have h1 := hmono 0 j (by omega) (by omega)
        have h2 := hmono k 10 (by omega) (by omega)
        simp only [decide_eq_true_eq, AUTO_BLOCK_WINDOW_MS]
        omega
      rw [hkeep, List.range_succ, List.map_append]
      rfl
    · rw [c4]
      dsimp only
      exact ih4
/-- C2. Auto-block on the chat surface: an 11th gated message from the same
canonical address inside the 2-second spam window is dropped with reason
`auto_blocked`, the address is recorded in the blocklist with reason
`auto_spam`, the address's earlier messages are PURGED from the rendered
history (contrary to the original claim that they remain), and every later
gated envelope from that address is ignored as a duplicate or dropped as
`blocked`. -/
theorem c2_spam_auto_block (topic selfAddr A : JStr) (pow : JStr → Except JStr Bool)
    (verify : JStr → JStr → JStr → JStr → VerifyRes)
    (env : Nat → Envelope) (prs : Nat → List (JStr × JStr)) (tm : Nat → Nat)
    (h : ∀ i, i ≤ 10 → PassesGates topic pow verify (env i) (prs i))
    (hA : ∀ i, i ≤ 10 → canonOf verify (env i) = A)
    (hA0 : A ≠ []) (hAtr : jsTrim A = A)
    (hne : ∀ i j, i ≤ 10 → j ≤ 10 → i ≠ j → nonceOf (prs i) ≠ nonceOf (prs j))
    (hmono : ∀ i j, i ≤ j → j ≤ 10 → tm i ≤ tm j)
    (hwin : tm 10 - tm 0 < 2000)
    (hself : selfAddr = [] ∨ A ≠ selfAddr) :
    (handleInbound topic selfAddr pow verify (tm 10)
      (runChat topic selfAddr pow verify initChatState
        ((List.range 10).map fun i => (tm i, env i))) (env 10)).2 =
      RxOutcome.dropped (jstr "auto_blocked") ∧
    (∃ d, mapGet (handleInbound topic selfAddr pow verify (tm 10)
      (runChat topic selfAddr pow verify initChatState
        ((List.range 10).map fun i => (tm i, env i))) (env 10)).1.blockedByAddr A =
      some ⟨A, d, tm 10, jstr "auto_spam"⟩) ∧
    (∀ m ∈ (handleInbound topic selfAddr pow verify (tm 10)
      (runChat topic selfAddr pow verify initChatState
        ((List.range 10).map fun i => (tm i, env i))) (env 10)).1.messages,
      m.addr ≠ A) ∧
    (∀ now2 e2 p2, PassesGates topic pow verify e2 p2 → canonOf verify e2 = A →
      (handleInbound topic selfAddr pow verify now2
        (handleInbound topic selfAddr pow verify (tm 10)
          (runChat topic selfAddr pow verify initChatState
            ((List.range 10).map fun i => (tm i, env i))) (env 10)).1 e2).2 =
          RxOutcome.ignoredDup ∨
      (handleInbound topic selfAddr pow verify now2
        (handleInbound topic selfAddr pow verify (tm 10)
          (runChat topic selfAddr pow verify initChatState
            ((List.range 10).map fun i => (tm i, env i))) (env 10)).1 e2).2 =
          RxOutcome.dropped (jstr "blocked")) := by
  obtain ⟨inv1, inv2, inv3, inv4⟩ :=
    c2_invariant topic selfAddr A pow verify env prs tm h hA hA0 hAtr hne hmono hwin 10
      (by omega)
  obtain ⟨⟨g1, g2, g3, g4, gdec, groom, gn1, gn2, gpow⟩, gv⟩ := h 10 (by omega)
  have hA2 : jsOr (verify (env 10).payload (jsTrim (env 10).signatureB64)
      (jsTrim (env 10).pubkeyB64) (jsTrim (env 10).address)).derivedAddress
      (jsTrim (env 10).address) = A := by
    simpa [canonOf] using hA 10 (by omega)
  have hkeep : ((List.range 10).map tm).filter
      (fun t => decide (tm 10 - t < AUTO_BLOCK_WINDOW_MS)) = (List.range 10).map tm := by
    rw [List.filter_eq_self]
    intro t ht
    simp only [List.mem_map, List.mem_range] at ht
    obtain ⟨j, hj, rfl⟩ := ht
    have h1 := hmono 0 j (by omega) (by omega)
    simp only [decide_eq_true_eq, AUTO_BLOCK_WINDOW_MS]
    omega
  obtain ⟨nm, d, hfire⟩ := afterVerify_spamfire selfAddr (tm 10)
    { runChat topic selfAddr pow verify initChatState
        ((List.range 10).map fun i => (tm i, env i)) with
      rxStats := { (runChat topic selfAddr pow verify initChatState
          ((List.range 10).map fun i => (tm i, env i))).rxStats with
        total := (runChat topic selfAddr pow verify initChatState
          ((List.range 10).map fun i => (tm i, env i))).rxStats.total + 1 } }
    (prs 10) (jsTrim (env 10).address) A _ hA2 hA0 hAtr gn1 (jsTrim_idem _)
    (by
      show A ++ ':' :: nonceOf (prs 10) ∉ (runChat topic selfAddr pow verify initChatState
        ((List.range 10).map fun i => (tm i, env i))).seenMsgIds
      rw [inv1]
      intro hmem
      simp only [List.mem_map, List.mem_range] at hmem
      obtain ⟨j, hj, heq⟩ := hmem
      exact msgId_inj_nonce A (nonceOf (prs j)) (nonceOf (prs 10))
        (hne j 10 (by omega) (by omega) (by omega)) heq)
    (by
      show mapGet (runChat topic selfAddr pow verify initChatState
        ((List.range 10).map fun i => (tm i, env i))).blockedByAddr A = none
      rw [inv4]
      rfl)
    (by
      show nonceOf (prs 10) ∉ (mapGet (runChat topic selfAddr pow verify initChatState
        ((List.range 10).map fun i => (tm i, env i))).recentNonces A).getD []
      rw [inv2]
      intro hmem
      simp only [List.mem_map, List.mem_range] at hmem
      obtain ⟨j, hj, heq⟩ := hmem
      exact hne j 10 (by omega) (by omega) (by omega) heq)
    (by
      show ((mapGet (runChat topic selfAddr pow verify initChatState
        ((List.range 10).map fun i => (tm i, env i))).recentNonces A).getD []).length < 24
      rw [inv2]
      simp only [List.length_map, List.length_range]
      omega)
    (by
      show (((mapGet (runChat topic selfAddr pow verify initChatState
        ((List.range 10).map fun i => (tm i, env i))).spamWindow A).getD []).filter
          fun t => decide (tm 10 - t < AUTO_BLOCK_WINDOW_MS)).length + 1 >
        AUTO_BLOCK_MAX_MESSAGES
      rw [inv3, hkeep]
      simp only [List.length_map, List.length_range]
      show 10 + 1 > 10
      omega)
    hself
  rw [handleInbound_gates topic selfAddr pow verify (tm 10) _ (env 10) (prs 10)
    ⟨g1, g2, g3, g4, gdec, groom, gn1, gn2, gpow⟩]
  dsimp only
  rw [if_neg (by simp [gv]), hfire]
  refine ⟨rfl, ?_, ?_, ?_⟩
  · dsimp only
    exact ⟨d, mapGet_set_self _ _ _⟩
  · dsimp only
    intro m hm
    have := (List.mem_filter.mp hm).2
    simpa using this
  · intro now2 e2 p2 hg2 hA2e
    obtain ⟨⟨q1, q2, q3, q4, qdec, qroom, qn1, qn2, qpow⟩, qv⟩ := hg2
    have hA2q : jsOr (verify e2.payload (jsTrim e2.signatureB64) (jsTrim e2.pubkeyB64)
        (jsTrim e2.address)).derivedAddress (jsTrim e2.address) = A := by
      simpa [canonOf] using hA2e
    rw [handleInbound_gates topic selfAddr pow verify now2 _ e2 p2
      ⟨q1, q2, q3, q4, qdec, qroom, qn1, qn2, qpow⟩]
    dsimp only
    rw [if_neg (by simp [qv])]
    by_cases hmem : A ++ ':' :: nonceOf p2 ∈
        ((runChat topic selfAddr pow verify initChatState
          ((List.range 10).map fun i => (tm i, env i))).seenMsgIds ++
          [A ++ ':' :: nonceOf (prs 10)])
    · left
      rw [afterVerify_dup selfAddr now2 _ p2 (jsTrim e2.address) A _ hA2q hmem]
    · right
      rw [afterVerify_blocked selfAddr now2 _ p2 (jsTrim e2.address) A _ hA2q hA0 hAtr hmem
        (by
          show (mapGet (mapSet (runChat topic selfAddr pow verify initChatState
            ((List.range 10).map fun i => (tm i, env i))).blockedByAddr A
              ⟨A, d, tm 10, jstr "auto_spam"⟩) A).isSome = true
          rw [mapGet_set_self]
          rfl)]
/-- C2 counterexample: on the reference pipeline, the first flood envelope is
accepted into the rendered history, but after the 11th envelope from the same
address within the 2-second window the address is auto-blocked with reason
`auto_spam` and its earlier messages are purged — the history is empty, so
messages sent before the block do NOT remain in history. -/
theorem c2_counterexample :
    (runChat (jstr "t") [] refPow refVerify initChatState [(1000, c2e 0)]).messages.length
      = 1 ∧
    (runChat (jstr "t") [] refPow refVerify initChatState
      ((List.range 11).map fun i => (1000 + i, c2e i))).messages.isEmpty = true ∧
    ((mapGet (runChat (jstr "t") [] refPow refVerify initChatState
      ((List.range 11).map fun i => (1000 + i, c2e i))).blockedByAddr
        (jstr "addr1")).map fun b => b.reason) = some (jstr "auto_spam") := by
  decide
/-- Witness for C2: the flood `c2e` at times `1000 + i` satisfies every
hypothesis of the auto-block theorem, and the 11th envelope is indeed
dropped with reason `auto_blocked`. -/
theorem c2_spam_auto_block_witness :
    (∀ i, i ≤ 10 → PassesGates (jstr "t") refPow refVerify (c2e i) (c2prs i)) ∧
    (handleInbound (jstr "t") [] refPow refVerify ((fun i => 1000 + i) 10)
      (runChat (jstr "t") [] refPow refVerify initChatState
        ((List.range 10).map fun i => ((fun i => 1000 + i) i, c2e i))) (c2e 10)).2 =
      RxOutcome.dropped (jstr "auto_blocked") :=
  ⟨by decide,
   (c2_spam_auto_block (jstr "t") [] (jstr "addr1") refPow refVerify c2e c2prs
     (fun i => 1000 + i) (by decide) (by decide) (by decide) (by decide)
     (by
       have H : ∀ i, i ≤ 10 → ∀ j, j ≤ 10 →
           (i ≠ j → nonceOf (c2prs i) ≠ nonceOf (c2prs j)) := by decide
       exact fun i j hi hj => H i hi j hj)
     (by
       intro i j h1 h2
       show 1000 + i ≤ 1000 + j
       omega)
     (by decide) (Or.inl rfl)).1⟩
theorem hexRound : ∀ n, n < 16 → hexDigitVal (hexDigitUpper n) = some n := by decide

theorem char_toNat_valid (c : Char) :
    c.toNat < 55296 ∨ (57343 < c.toNat ∧ c.toNat < 1114112) := c.valid

theorem uriUnreserved_props (c : Char) (h : uriUnreserved c = true) :
    c.toNat ≠ 37 ∧ c.toNat ≠ 124 ∧ c.toNat ≠ 61 := by
  unfold uriUnreserved at h
  simp only [decide_eq_true_eq] at h
  omega

theorem utf8Bytes_lt (c : Char) : ∀ b ∈ utf8Bytes c, b < 256 := by
  have hv := char_toNat_valid c
  intro b hb
  simp only [utf8Bytes] at hb
  split_ifs at hb <;>
    simp only [List.mem_cons, List.mem_singleton, List.not_mem_nil, or_false] at hb <;>
    omega

theorem hexUpper_ne : ∀ n, n < 16 →
    (hexDigitUpper n).toNat ≠ 37 ∧ (hexDigitUpper n).toNat ≠ 124 := by decide

theorem enc_split (c : Char) (rest : JStr) :
    encodeURIComponentModel (c :: rest) =
      (if uriUnreserved c then [c] else ((utf8Bytes c).map escapeByte).flatten) ++
        encodeURIComponentModel rest := by
  simp [encodeURIComponentModel]

theorem enc_no_char (v : JStr) :
    ∀ ch ∈ encodeURIComponentModel v, ch.toNat ≠ 37 → ch.toNat ≠ 124 := by
  induction v with
  | nil => intro ch h; simp [encodeURIComponentModel] at h
  | cons c rest ih =>
    intro ch hch
    rw [enc_split] at hch
    rcases List.mem_append.mp hch with hl | hr
    · by_cases hu : uriUnreserved c
      · rw [if_pos hu] at hl
        simp only [List.mem_singleton] at hl
        intro _
        rw [hl]
        exact (uriUnreserved_props c hu).2.1
      · rw [if_neg hu] at hl
        obtain ⟨esc, hesc, hin⟩ := List.mem_flatten.mp hl
        obtain ⟨b, hb, rfl⟩ := List.mem_map.mp hesc
        have hb256 := utf8Bytes_lt c b hb
        simp only [escapeByte, List.mem_cons, List.not_mem_nil, or_false] at hin
        rcases hin with rfl | rfl | rfl
        · intro h; exact absurd rfl h
        · intro _; exact (hexUpper_ne (b / 16) (by omega)).2
        · intro _; exact (hexUpper_ne (b % 16) (by omega)).2
    · exact ih ch hr

theorem splitOnChar_no_sep (sep : Char) (a : JStr) (h : sep ∉ a) :
    splitOnChar sep a = [a] := by
  induction a with
  | nil => rfl
  | cons c t ih =>
    simp only [List.mem_cons, not_or] at h
    have hcs : ¬ c = sep := fun hc => h.1 hc.symm
    simp only [splitOnChar, if_neg hcs]
    rw [ih h.2]

theorem splitOnChar_append_sep (sep : Char) (a b : JStr) (h : sep ∉ a) :
    splitOnChar sep (a ++ sep :: b) = a :: splitOnChar sep b := by
  induction a with
  | nil => simp [splitOnChar]
  | cons c t ih =>
    simp only [List.mem_cons, not_or] at h
    have hcs : ¬ c = sep := fun hc => h.1 hc.symm
    simp only [List.cons_append, splitOnChar, if_neg hcs, List.append_eq]
    rw [ih h.2]

theorem splitOnChar_joinWith (sep : Char) (ps : List JStr)
    (h : ∀ p ∈ ps, sep ∉ p) (hne : ps ≠ []) :
    splitOnChar sep (joinWith sep ps) = ps := by
  induction ps with
  | nil => exact absurd rfl hne
  | cons p t ih =>
    cases t with
    | nil => exact splitOnChar_no_sep sep p (h p (by simp))
    | cons q r =>
      show splitOnChar sep (p ++ sep :: joinWith sep (q :: r)) = _
      rw [splitOnChar_append_sep sep p _ (h p (by simp))]
      rw [ih (fun x hx => h x (List.mem_cons_of_mem p hx)) (by simp)]

theorem jsIndexOfChar_append_self (k r : JStr) (c : Char) (h : c ∉ k) :
    jsIndexOfChar c (k ++ c :: r) = some k.length := by
  induction k with
  | nil => simp [jsIndexOfChar]
  | cons a t ih =>
    simp only [List.mem_cons, not_or] at h
    have hac : ¬ ((a == c) = true) := by
      simp only [beq_iff_eq]
      exact fun hc => h.1 hc.symm
    simp only [jsIndexOfChar, List.cons_append, List.findIdx?_cons] at ih ⊢
    rw [if_neg hac, List.findIdx?_succ, ih h.2]
    rfl
theorem pdStep_plain (c : Char) (r : JStr) (h : ¬ c = '%') :
    pdStep (c :: r) = some (c, r) := by
  simp only [pdStep]
  rw [if_neg h]

theorem pdStep_esc1 (b : Nat) (hb : b < 128) (r : JStr) :
    pdStep (escapeByte b ++ r) = some (Char.ofNat b, r) := by
  show pdStep ('%' :: hexDigitUpper (b / 16) :: hexDigitUpper (b % 16) :: r) = _
  simp only [pdStep, hexPair, if_true]
  rw [hexRound (b / 16) (by omega), hexRound (b % 16) (by omega)]
  dsimp only
  rw [show 16 * (b / 16) + b % 16 = b by omega]
  rw [if_pos hb]
theorem pdStep_esc2 (b1 b2 : Nat) (h1 : 194 ≤ b1 ∧ b1 ≤ 223)
    (h2 : 128 ≤ b2 ∧ b2 ≤ 191) (r : JStr) :
    pdStep (escapeByte b1 ++ escapeByte b2 ++ r) =
      some (Char.ofNat ((b1 - 192) * 64 + (b2 - 128)), r) := by
  show pdStep ('%' :: hexDigitUpper (b1 / 16) :: hexDigitUpper (b1 % 16) :: '%' ::
    hexDigitUpper (b2 / 16) :: hexDigitUpper (b2 % 16) :: r) = _
  simp only [pdStep, hexPair, contByte, if_true]
  rw [hexRound (b1 / 16) (by omega), hexRound (b1 % 16) (by omega),
    hexRound (b2 / 16) (by omega), hexRound (b2 % 16) (by omega)]
  dsimp only
  rw [show 16 * (b1 / 16) + b1 % 16 = b1 by omega,
    show 16 * (b2 / 16) + b2 % 16 = b2 by omega]
  rw [if_neg (show ¬ b1 < 128 by omega), if_pos h1, if_pos h2]

theorem pdStep_esc3 (b1 b2 b3 : Nat) (h1 : 224 ≤ b1 ∧ b1 ≤ 239)
    (h2 : (if b1 = 224 then 160 else 128) ≤ b2 ∧ b2 ≤ (if b1 = 237 then 159 else 191))
    (h3 : 128 ≤ b3 ∧ b3 ≤ 191) (r : JStr) :
    pdStep (escapeByte b1 ++ escapeByte b2 ++ escapeByte b3 ++ r) =
      some (Char.ofNat ((b1 - 224) * 4096 + (b2 - 128) * 64 + (b3 - 128)), r) := by
  have hb2 : 128 ≤ b2 ∧ b2 ≤ 191 :=
    ⟨by split_ifs at h2 <;> omega, by split_ifs at h2 <;> omega⟩
  show pdStep ('%' :: hexDigitUpper (b1 / 16) :: hexDigitUpper (b1 % 16) :: '%' ::
    hexDigitUpper (b2 / 16) :: hexDigitUpper (b2 % 16) :: '%' ::
    hexDigitUpper (b3 / 16) :: hexDigitUpper (b3 % 16) :: r) = _
  simp only [pdStep, hexPair, contByte, if_true]
  rw [hexRound (b1 / 16) (by omega), hexRound (b1 % 16) (by omega),
    hexRound (b2 / 16) (by omega), hexRound (b2 % 16) (by omega),
    hexRound (b3 / 16) (by omega), hexRound (b3 % 16) (by omega)]
  dsimp only
  rw [show 16 * (b1 / 16) + b1 % 16 = b1 by omega,
    show 16 * (b2 / 16) + b2 % 16 = b2 by omega,
    show 16 * (b3 / 16) + b3 % 16 = b3 by omega]
  rw [if_neg (show ¬ b1 < 128 by omega), if_neg (show ¬ (194 ≤ b1 ∧ b1 ≤ 223) by omega),
    if_pos h1, if_pos h2, if_pos h3]

theorem pdStep_esc4 (b1 b2 b3 b4 : Nat) (h1 : 240 ≤ b1 ∧ b1 ≤ 244)
    (h2 : (if b1 = 240 then 144 else 128) ≤ b2 ∧ b2 ≤ (if b1 = 244 then 143 else 191))
    (h3 : 128 ≤ b3 ∧ b3 ≤ 191) (h4 : 128 ≤ b4 ∧ b4 ≤ 191) (r : JStr) :
    pdStep (escapeByte b1 ++ escapeByte b2 ++ escapeByte b3 ++ escapeByte b4 ++ r) =
      some (Char.ofNat ((b1 - 240) * 262144 + (b2 - 128) * 4096 + (b3 - 128) * 64 +
        (b4 - 128)), r) := by
  have hb2 : 128 ≤ b2 ∧ b2 ≤ 191 :=
    ⟨by split_ifs at h2 <;> omega, by split_ifs at h2 <;> omega⟩
  show pdStep ('%' :: hexDigitUpper (b1 / 16) :: hexDigitUpper (b1 % 16) :: '%' ::
    hexDigitUpper (b2 / 16) :: hexDigitUpper (b2 % 16) :: '%' ::
    hexDigitUpper (b3 / 16) :: hexDigitUpper (b3 % 16) :: '%' ::
    hexDigitUpper (b4 / 16) :: hexDigitUpper (b4 % 16) :: r) = _
  simp only [pdStep, hexPair, contByte, if_true]
  rw [hexRound (b1 / 16) (by omega), hexRound (b1 % 16) (by omega),
    hexRound (b2 / 16) (by omega), hexRound (b2 % 16) (by omega),
    hexRound (b3 / 16) (by omega), hexRound (b3 % 16) (by omega),
    hexRound (b4 / 16) (by omega), hexRound (b4 % 16) (by omega)]
  dsimp only
  rw [show 16 * (b1 / 16) + b1 % 16 = b1 by omega,
    show 16 * (b2 / 16) + b2 % 16 = b2 by omega,
    show 16 * (b3 / 16) + b3 % 16 = b3 by omega,
    show 16 * (b4 / 16) + b4 % 16 = b4 by omega]
  rw [if_neg (show ¬ b1 < 128 by omega), if_neg (show ¬ (194 ≤ b1 ∧ b1 ≤ 223) by omega),
    if_neg (show ¬ (224 ≤ b1 ∧ b1 ≤ 239) by omega), if_pos h1, if_pos h2, if_pos h3,
    if_pos h4]
theorem esc_flat_len (bs : List Nat) : ((bs.map escapeByte).flatten).length = 3 * bs.length := by
  induction bs with
  | nil => rfl
  | cons b t ih => simp [escapeByte, ih]; omega

theorem utf8Bytes_ne (c : Char) : utf8Bytes c ≠ [] := by
  simp only [utf8Bytes]
  split_ifs <;> simp

theorem pdStep_encHead (c : Char) (v : JStr) :
    pdStep (encodeURIComponentModel (c :: v)) = some (c, encodeURIComponentModel v) := by
  rw [enc_split]
  by_cases hu : uriUnreserved c
  · rw [if_pos hu]
    show pdStep (c :: encodeURIComponentModel v) = _
    refine pdStep_plain c _ (fun hc => ?_)
    have := (uriUnreserved_props c hu).1
    rw [hc] at this
    exact this rfl
  · rw [if_neg hu]
    have hv := char_toNat_valid c
    by_cases h1 : c.toNat < 128
    · have hb : utf8Bytes c = [c.toNat] := by
        simp only [utf8Bytes]
        rw [if_pos h1]
      rw [hb]
      show pdStep (escapeByte c.toNat ++ ([] ++ encodeURIComponentModel v)) = _
      rw [List.nil_append, pdStep_esc1 c.toNat h1, Char.ofNat_toNat]
    · by_cases h2 : c.toNat < 2048
      · have hb : utf8Bytes c = [192 + c.toNat / 64, 128 + c.toNat % 64] := by
          simp only [utf8Bytes]
          rw [if_neg h1, if_pos h2]
        rw [hb]
        show pdStep (escapeByte (192 + c.toNat / 64) ++
          (escapeByte (128 + c.toNat % 64) ++ ([] ++ encodeURIComponentModel v))) = _
        rw [List.nil_append, ← List.append_assoc, pdStep_esc2 _ _ (by omega) (by omega)]
        rw [show (192 + c.toNat / 64 - 192) * 64 + (128 + c.toNat % 64 - 128) = c.toNat by
          omega]
        rw [Char.ofNat_toNat]
      · by_cases h3 : c.toNat < 65536
        · have hb : utf8Bytes c = [224 + c.toNat / 4096, 128 + c.toNat / 64 % 64,
              128 + c.toNat % 64] := by
            simp only [utf8Bytes]
            rw [if_neg h1, if_neg h2, if_pos h3]
          rw [hb]
          show pdStep (escapeByte (224 + c.toNat / 4096) ++
            (escapeByte (128 + c.toNat / 64 % 64) ++ (escapeByte (128 + c.toNat % 64) ++
              ([] ++ encodeURIComponentModel v)))) = _
          rw [List.nil_append, ← List.append_assoc, ← List.append_assoc]
          rw [pdStep_esc3 _ _ _ (by omega) (by split_ifs <;> omega) (by omega)]
          rw [show (224 + c.toNat / 4096 - 224) * 4096 + (128 + c.toNat / 64 % 64 - 128) * 64 +
            (128 + c.toNat % 64 - 128) = c.toNat by omega]
          rw [Char.ofNat_toNat]
        · have hb : utf8Bytes c = [240 + c.toNat / 262144, 128 + c.toNat / 4096 % 64,
              128 + c.toNat / 64 % 64, 128 + c.toNat % 64] := by
            simp only [utf8Bytes]
            rw [if_neg h1, if_neg h2, if_neg h3]
          rw [hb]
          show pdStep (escapeByte (240 + c.toNat / 262144) ++
            (escapeByte (128 + c.toNat / 4096 % 64) ++ (escapeByte (128 + c.toNat / 64 % 64) ++
              (escapeByte (128 + c.toNat % 64) ++ ([] ++ encodeURIComponentModel v))))) = _
          rw [List.nil_append, ← List.append_assoc, ← List.append_assoc, ← List.append_assoc]
          rw [pdStep_esc4 _ _ _ _ (by omega) (by split_ifs <;> omega) (by omega) (by omega)]
          rw [show (240 + c.toNat / 262144 - 240) * 262144 +
            (128 + c.toNat / 4096 % 64 - 128) * 4096 + (128 + c.toNat / 64 % 64 - 128) * 64 +
            (128 + c.toNat % 64 - 128) = c.toNat by omega]
          rw [Char.ofNat_toNat]
theorem enc_head_len (c : Char) :
    1 ≤ (if uriUnreserved c then [c] else ((utf8Bytes c).map escapeByte).flatten).length := by
  by_cases hu : uriUnreserved c
  · rw [if_pos hu]; exact Nat.le_refl 1
  · rw [if_neg hu, esc_flat_len]
    have := utf8Bytes_ne c
    cases h : utf8Bytes c with
    | nil => exact absurd h this
    | cons b t => simp [h]; omega

theorem pdRun_enc (v : JStr) : ∀ fuel, (encodeURIComponentModel v).length ≤ fuel →
    pdRun fuel (encodeURIComponentModel v) = some v := by
  induction v with
  | nil =>
    intro fuel _
    show pdRun fuel [] = some []
    cases fuel <;> rfl
  | cons c rest ih =>
    intro fuel hf
    have hlen : (encodeURIComponentModel rest).length + 1 ≤
        (encodeURIComponentModel (c :: rest)).length := by
      rw [enc_split, List.length_append]
      have := enc_head_len c
      omega
    obtain ⟨f, rfl⟩ : ∃ f, fuel = f + 1 := by
      cases fuel with
      | zero => omega
      | succ f => exact ⟨f, rfl⟩
    obtain ⟨hd, tl, he⟩ : ∃ hd tl, encodeURIComponentModel (c :: rest) = hd :: tl := by
      cases h : encodeURIComponentModel (c :: rest) with
      | nil => rw [h] at hlen; simp at hlen
      | cons hd tl => exact ⟨hd, tl, rfl⟩
    rw [he]
    show (match pdStep (hd :: tl) with
      | some p => (pdRun f p.2).map fun t => p.1 :: t
      | none => none) = some (c :: rest)
    rw [← he, pdStep_encHead]
    dsimp only
    rw [ih f (by omega)]
    rfl

theorem percentDecode_enc (v : JStr) :
    percentDecode (encodeURIComponentModel v) = some v :=
  pdRun_enc v _ (Nat.le_refl _)
theorem orderedInsertLe_perm {α : Type} (le : α → α → Bool) (a : α) (l : List α) :
    List.Perm (orderedInsertLe le a l) (a :: l) := by
  induction l with
  | nil => exact List.Perm.refl _
  | cons b t ih =>
    show List.Perm (if le a b then a :: b :: t else b :: orderedInsertLe le a t) _
    by_cases h : le a b
    · rw [if_pos h]
    · rw [if_neg h]
      exact ((ih.cons b).trans (List.Perm.swap a b t))

theorem jsSortBy_perm {α : Type} (le : α → α → Bool) (l : List α) :
    List.Perm (jsSortBy le l) l := by
  induction l with
  | nil => exact List.Perm.refl _
  | cons a t ih =>
    show List.Perm (orderedInsertLe le a (jsSortBy le t)) _
    exact (orderedInsertLe_perm le a _).trans (ih.cons a)

theorem mapGet_set_ne {α : Type} (m : List (JStr × α)) (k k2 : JStr) (v : α)
    (h : ¬ k2 = k) : mapGet (mapSet m k v) k2 = mapGet m k2 := by
  unfold mapSet
  by_cases ha : m.any fun p => decide (p.1 = k)
  · rw [if_pos ha]
    clear ha
    induction m with
    | nil => rfl
    | cons p t ih =>
      by_cases hpk : p.1 = k
      · simp only [List.map_cons, if_pos hpk, mapGet, List.find?_cons]
        have h1 : (decide ((k, v).1 = k2)) = false := by
          simp only [decide_eq_false_iff_not]
          exact fun hk => h hk.symm
        have h2 : (decide (p.1 = k2)) = false := by
          simp only [decide_eq_false_iff_not]
          rw [hpk]
          exact fun hk => h hk.symm
        rw [h1, h2]
        exact ih
      · simp only [List.map_cons, if_neg hpk, mapGet, List.find?_cons]
        cases hd : decide (p.1 = k2)
        · exact ih
        · rfl
  · rw [if_neg ha]
    induction m with
    | nil =>
      show mapGet [(k, v)] k2 = mapGet [] k2
      simp only [mapGet, List.find?_cons, List.find?_nil]
      rw [show (decide ((k, v).1 = k2)) = false by
        simp only [decide_eq_false_iff_not]
        exact fun hk => h hk.symm]
    | cons p t ih =>
      simp only [List.any_cons, Bool.or_eq_true, not_or] at ha
      simp only [List.cons_append, mapGet, List.find?_cons]
      cases hd : decide (p.1 = k2)
      · exact ih ha.2
      · rfl

theorem mapGet_foldl_set_not_mem (l : List (JStr × JStr)) : ∀ (m : List (JStr × JStr))
    (k : JStr), (∀ kw ∈ l, ¬ k = kw.1) →
    mapGet (l.foldl (fun m2 kv => mapSet m2 kv.1 kv.2) m) k = mapGet m k := by
  induction l with
  | nil => intro m k _; rfl
  | cons kv t ih =>
    intro m k h
    show mapGet (t.foldl _ (mapSet m kv.1 kv.2)) k = _
    rw [ih _ k (fun kw hw => h kw (List.mem_cons_of_mem kv hw))]
    exact mapGet_set_ne m kv.1 k kv.2 (h kv (List.mem_cons_self kv t))

theorem mapGet_foldl_set_mem (l : List (JStr × JStr)) : ∀ (m : List (JStr × JStr))
    (k : JStr) (v : JStr), (l.map Prod.fst).Nodup → (k, v) ∈ l →
    mapGet (l.foldl (fun m2 kv => mapSet m2 kv.1 kv.2) m) k = some v := by
  induction l with
  | nil => intro m k v _ hm; simp at hm
  | cons kv t ih =>
    intro m k v hnd hm
    simp only [List.map_cons, List.nodup_cons] at hnd
    show mapGet (t.foldl _ (mapSet m kv.1 kv.2)) k = some v
    rcases List.mem_cons.mp hm with heq | ht
    · have hk : kv.1 = k := by rw [← heq]
      have hv : kv.2 = v := by rw [← heq]
      rw [mapGet_foldl_set_not_mem t _ k ?hall]
      · rw [← hk, ← hv]
        exact mapGet_set_self _ _ _
      case hall =>
        intro kw hw hkk
        exact hnd.1 (by rw [hk, hkk]; exact List.mem_map_of_mem Prod.fst hw)
    · exact ih _ k v hnd.2 ht

theorem foldl_mapSet_fresh (l : List (JStr × JStr)) : ∀ m : List (JStr × JStr),
    (∀ kv ∈ l, (m.any fun p => decide (p.1 = kv.1)) = false) →
    (l.map Prod.fst).Nodup →
    l.foldl (fun m2 kv => mapSet m2 kv.1 kv.2) m = m ++ l := by
  induction l with
  | nil => intro m _ _; simp
  | cons kv t ih =>
    intro m hf hnd
    simp only [List.map_cons, List.nodup_cons] at hnd
    show t.foldl _ (mapSet m kv.1 kv.2) = _
    have hset : mapSet m kv.1 kv.2 = m ++ [(kv.1, kv.2)] := by
      unfold mapSet
      rw [if_neg (by rw [hf kv (List.mem_cons_self kv t)]; exact Bool.false_ne_true)]
    rw [hset]
    rw [ih (m ++ [(kv.1, kv.2)]) ?hfresh hnd.2]
    · simp
    case hfresh =>
      intro kw hw
      simp only [List.any_append, Bool.or_eq_false_iff]
      refine ⟨hf kw (List.mem_cons_of_mem kv hw), ?_⟩
      simp only [List.any_cons, List.any_nil, Bool.or_false, decide_eq_false_iff_not]
      exact fun hk => hnd.1 (by rw [hk]; exact List.mem_map_of_mem Prod.fst hw)
theorem parseSegment_part (obj : List (JStr × JStr)) (k v : JStr) (hk : k ≠ [])
    (hke : '=' ∉ k) :
    parseSegment obj (k ++ '=' :: encodeURIComponentModel v) = Except.ok (mapSet obj k v) := by
  cases k with
  | nil => exact absurd rfl hk
  | cons a t =>
    simp only [parseSegment]
    rw [jsIndexOfChar_append_self _ _ _ hke]
    show (match some (a :: t).length with
      | none => Except.ok obj
      | some 0 => Except.ok obj
      | some i =>
        match percentDecode (((a :: t) ++ '=' :: encodeURIComponentModel v).drop (i + 1)) with
        | some dv => Except.ok (mapSet obj (((a :: t) ++ '=' :: encodeURIComponentModel v).take i) dv)
        | none => Except.error ()) = _
    show (match percentDecode (((a :: t) ++ '=' :: encodeURIComponentModel v).drop
        ((a :: t).length + 1)) with
      | some dv => Except.ok (mapSet obj (((a :: t) ++ '=' :: encodeURIComponentModel v).take
          (a :: t).length) dv)
      | none => Except.error ()) = _
    rw [show (a :: t) ++ '=' :: encodeURIComponentModel v =
      ((a :: t) ++ ['=']) ++ encodeURIComponentModel v by simp]
    rw [show (a :: t).length + 1 = ((a :: t) ++ ['=']).length by simp]
    rw [List.drop_left, percentDecode_enc, List.append_assoc, List.take_left]

theorem foldlM_parts (ps : List (JStr × JStr))
    (h : ∀ kv ∈ ps, kv.1 ≠ [] ∧ '=' ∉ kv.1) : ∀ obj,
    (ps.map fun kv => kv.1 ++ '=' :: encodeURIComponentModel kv.2).foldlM parseSegment obj =
      Except.ok (ps.foldl (fun m kv => mapSet m kv.1 kv.2) obj) := by
  induction ps with
  | nil => intro obj; rfl
  | cons kv t ih =>
    intro obj
    simp only [List.map_cons, List.foldlM_cons]
    rw [parseSegment_part obj kv.1 kv.2 (h kv (List.mem_cons_self kv t)).1
      (h kv (List.mem_cons_self kv t)).2]
    show (t.map fun kv => kv.1 ++ '=' :: encodeURIComponentModel kv.2).foldlM
      parseSegment (mapSet obj kv.1 kv.2) = _
    exact ih (fun kw hw => h kw (List.mem_cons_of_mem kv hw)) _
theorem part_no_bar (k v : JStr) (hk : '|' ∉ k) :
    '|' ∉ k ++ '=' :: encodeURIComponentModel v := by
  intro hmem
  rcases List.mem_append.mp hmem with h | h
  · exact hk h
  · rcases List.mem_cons.mp h with h1 | h2
    · exact absurd h1 (by decide)
    · exact (enc_no_char v '|' h2 (by decide)) rfl

/-- C5.  Amended round trip for the payload codec: with an arbitrary key
comparator, `decode(encode(t, fields))` yields `type == t` and reproduces
every original key/value pair PROVIDED every key is nonempty, contains no
`|` and no `=`, differs from `"type"`, and the keys are pairwise distinct
(and the type contains no `|`).  Values need no restriction: they are
percent-encoded.  Without the key restrictions the round trip fails
(`c5_counterexample`). -/
theorem c5_field_roundtrip (tag : JStr) (cmp : JStr → JStr → Ordering) (t : JStr)
    (fields : List (JStr × JStr)) (htag : '|' ∉ tag) (ht : '|' ∉ t)
    (hkeys : ∀ kv ∈ fields, kv.1 ≠ [] ∧ '|' ∉ kv.1 ∧ '=' ∉ kv.1 ∧ kv.1 ≠ jstr "type")
    (hnodup : (fields.map Prod.fst).Nodup) :
    ∃ parsed, decodePayload tag (encodePayload tag cmp t fields) = Except.ok (some parsed) ∧
      getStr parsed (jstr "type") = t ∧
      (∀ kv ∈ fields, mapGet parsed kv.1 = some kv.2) := by
  have hperm := jsSortBy_perm (cmpLe cmp) fields
  have hkeys2 : ∀ kv ∈ jsSortBy (cmpLe cmp) fields,
      kv.1 ≠ [] ∧ '|' ∉ kv.1 ∧ '=' ∉ kv.1 ∧ kv.1 ≠ jstr "type" :=
    fun kv hkv => hkeys kv (hperm.mem_iff.mp hkv)
  have hnd2 : ((jsSortBy (cmpLe cmp) fields).map Prod.fst).Nodup :=
    ((hperm.map Prod.fst).nodup_iff).mpr hnodup
  have hparts_nobar : ∀ p ∈ (jsSortBy (cmpLe cmp) fields).map
      (fun kv => kv.1 ++ '=' :: encodeURIComponentModel kv.2), '|' ∉ p := by
    intro p hp
    obtain ⟨kv, hkv, rfl⟩ := List.mem_map.mp hp
    exact part_no_bar kv.1 kv.2 (hkeys2 kv hkv).2.1
  have hpay : encodePayload tag cmp t fields =
      tag ++ '|' :: (jstr "v1" ++ '|' :: (t ++ '|' :: joinWith '|'
        ((jsSortBy (cmpLe cmp) fields).map
          (fun kv => kv.1 ++ '=' :: encodeURIComponentModel kv.2)))) := by
    simp only [encodePayload, List.append_assoc]
    rfl
  rw [hpay]
  simp only [decodePayload]
  rw [splitOnChar_append_sep '|' tag _ htag,
    splitOnChar_append_sep '|' (jstr "v1") _ (by decide),
    splitOnChar_append_sep '|' t _ ht]
  dsimp only
  by_cases hB : jsSortBy (cmpLe cmp) fields = []
  · have hfields : fields = [] := by
      have := hperm
      rw [hB] at this
      exact this.symm.eq_nil
    rw [hB]
    rw [if_neg (by decide), if_neg (by simp), if_neg (by simp)]
    refine ⟨[(jstr "type", t)], by rfl, ?_, ?_⟩
    · show ((mapGet [(jstr "type", t)] (jstr "type")).getD []) = t
      rw [mapGet_cons_self, Option.getD_some]
    · rw [hfields]
      intro kv hkv
      simp at hkv
  · rw [splitOnChar_joinWith '|' _ hparts_nobar (by
      intro hnil
      exact hB (List.map_eq_nil_iff.mp hnil))]
    rw [if_neg (by
      simp only [List.length_map, List.length_eq_zero]
      exact hB)]
    rw [if_neg (by simp), if_neg (by simp)]
    rw [foldlM_parts _ (fun kv hkv => ⟨(hkeys2 kv hkv).1, (hkeys2 kv hkv).2.2.1⟩) []]
    dsimp only
    rw [foldl_mapSet_fresh _ [] (by intro kv _; rfl) hnd2]
    rw [List.nil_append]
    refine ⟨_, rfl, ?_, ?_⟩
    · show ((mapGet ((jsSortBy (cmpLe cmp) fields).foldl
        (fun m kv => mapSet m kv.1 kv.2) [(jstr "type", t)]) (jstr "type")).getD []) = t
      rw [mapGet_foldl_set_not_mem _ _ _ (fun kw hw hk =>
        (hkeys2 kw hw).2.2.2 hk.symm)]
      rw [mapGet_cons_self, Option.getD_some]
    · intro kv hkv
      exact mapGet_foldl_set_mem _ _ kv.1 kv.2 hnd2 (hperm.mem_iff.mpr hkv)
/-- C5 counterexample: a key containing `=` is not reproduced by the round
trip (the pair `("a=b", "1")` decodes as `("a", "b=1")` and the original key
is absent), and a field named `type` overrides the positional type, so the
decoded `type` is not the `t` passed to `encode`. -/
theorem c5_counterexample :
    decodePayload chatTag (encodePayload chatTag cpCompare (jstr "msg")
      [(jstr "a=b", jstr "1")]) =
      Except.ok (some [(jstr "type", jstr "msg"), (jstr "a", jstr "b=1")]) ∧
    decodePayload chatTag (encodePayload chatTag cpCompare (jstr "msg")
      [(jstr "type", jstr "join")]) =
      Except.ok (some [(jstr "type", jstr "join")]) := by decide

/-- Witness for C5: a concrete field map with restricted keys (values contain
`|` and `=` freely) round-trips exactly. -/
theorem c5_field_roundtrip_witness :
    ('|' ∉ chatTag) ∧
    (∃ parsed, decodePayload chatTag (encodePayload chatTag cpCompare (jstr "msg")
        [(jstr "room", jstr "t"), (jstr "text", jstr "hi|x=1")]) = Except.ok (some parsed) ∧
      getStr parsed (jstr "type") = jstr "msg" ∧
      (∀ kv ∈ [(jstr "room", jstr "t"), (jstr "text", jstr "hi|x=1")],
        mapGet parsed kv.1 = some kv.2)) :=
  ⟨by decide, c5_field_roundtrip chatTag cpCompare (jstr "msg") _ (by decide) (by decide)
    (by decide) (by decide)⟩
theorem orderedInsertLe_sorted {α : Type} (le : α → α → Bool)
    (htot : ∀ a b, le a b = true ∨ le b a = true)
    (htrans : ∀ a b c, le a b = true → le b c = true → le a c = true)
    (a : α) (l : List α) (hs : l.Pairwise (fun x y => le x y = true)) :
    (orderedInsertLe le a l).Pairwise (fun x y => le x y = true) := by
  induction l with
  | nil => simp [orderedInsertLe]
  | cons b t ih =>
    rw [List.pairwise_cons] at hs
    show (if le a b then a :: b :: t else b :: orderedInsertLe le a t).Pairwise _
    by_cases h : le a b
    · rw [if_pos h]
      rw [List.pairwise_cons]
      refine ⟨?_, List.pairwise_cons.mpr hs⟩
      intro y hy
      rcases List.mem_cons.mp hy with rfl | hyt
      · exact h
      · exact htrans a b y h (hs.1 y hyt)
    · rw [if_neg h]
      rw [List.pairwise_cons]
      refine ⟨?_, ih hs.2⟩
      intro y hy
      rcases List.mem_cons.mp ((orderedInsertLe_perm le a t).mem_iff.mp hy) with h1 | hyt
      · rw [h1]
        rcases htot a b with hab | hba
        · exact absurd hab h
        · exact hba
      · exact hs.1 y hyt

theorem jsSortBy_sorted {α : Type} (le : α → α → Bool)
    (htot : ∀ a b, le a b = true ∨ le b a = true)
    (htrans : ∀ a b c, le a b = true → le b c = true → le a c = true)
    (l : List α) : (jsSortBy le l).Pairwise (fun x y => le x y = true) := by
  induction l with
  | nil => simp [jsSortBy]
  | cons a t ih => exact orderedInsertLe_sorted le htot htrans a (jsSortBy le t) ih

theorem sorted_perm_eq {α : Type} (le : α → α → Bool) (l1 l2 : List α)
    (hp : l1.Perm l2) (hs1 : l1.Pairwise (fun x y => le x y = true))
    (hs2 : l2.Pairwise (fun x y => le x y = true))
    (hanti : ∀ a ∈ l1, ∀ b ∈ l1, le a b = true → le b a = true → a = b) :
    l1 = l2 := by
  induction l1 generalizing l2 with
  | nil => exact (hp.nil_eq).symm ▸ rfl
  | cons a t1 ih =>
    cases l2 with
    | nil => exact absurd hp.symm.nil_eq (by simp)
    | cons b t2 =>
      rw [List.pairwise_cons] at hs1 hs2
      have hab : a = b := by
        have hain : a ∈ b :: t2 := hp.mem_iff.mp (List.mem_cons_self a t1)
        have hbin : b ∈ a :: t1 := hp.mem_iff.mpr (List.mem_cons_self b t2)
        rcases List.mem_cons.mp hain with h1 | h1
        · exact h1
        · rcases List.mem_cons.mp hbin with h2 | h2
          · exact h2.symm
          · exact hanti a (List.mem_cons_self a t1) b (List.mem_cons_of_mem a h2)
              (hs1.1 b h2) (hs2.1 a h1)
      subst hab
      have hpt : t1.Perm t2 := (List.perm_cons a).mp hp
      rw [ih t2 hpt hs1.2 hs2.2 (fun x hx y hy => hanti x (List.mem_cons_of_mem a hx) y
        (List.mem_cons_of_mem a hy))]

theorem nodup_fst_inj (l : List (JStr × JStr)) (hnd : (l.map Prod.fst).Nodup)
    (a b : JStr × JStr) (ha : a ∈ l) (hb : b ∈ l) (hk : a.1 = b.1) : a = b := by
  induction l with
  | nil => simp at ha
  | cons p t ih =>
    simp only [List.map_cons, List.nodup_cons] at hnd
    rcases List.mem_cons.mp ha with rfl | hat
    · rcases List.mem_cons.mp hb with rfl | hbt
      · rfl
      · exact absurd (by rw [hk]; exact List.mem_map_of_mem Prod.fst hbt) hnd.1
    · rcases List.mem_cons.mp hb with rfl | hbt
      · exact absurd (by rw [← hk]; exact List.mem_map_of_mem Prod.fst hat) hnd.1
      · exact ih hnd.2 hat hbt
/-- C6.  Amended: the canonical encoding sorts keys with the host
`localeCompare` (not by code-point order — see `c6_counterexample`), and the
output of `encode(t, f)` is independent of the insertion order of `f`'s keys
whenever the comparator is total, transitive, and tie-free on the map's
(pairwise-distinct) keys. -/
theorem c6_insertion_order (tag : JStr) (cmp : JStr → JStr → Ordering) (t : JStr)
    (f1 f2 : List (JStr × JStr)) (hp : f1.Perm f2)
    (htot : ∀ a b : JStr, cmp a b = Ordering.gt → cmp b a ≠ Ordering.gt)
    (htrans : ∀ a b c : JStr, cmp a b ≠ Ordering.gt → cmp b c ≠ Ordering.gt →
      cmp a c ≠ Ordering.gt)
    (hanti : ∀ kv1 ∈ f1, ∀ kv2 ∈ f1, cmp kv1.1 kv2.1 ≠ Ordering.gt →
      cmp kv2.1 kv1.1 ≠ Ordering.gt → kv1.1 = kv2.1)
    (hnodup : (f1.map Prod.fst).Nodup) :
    encodePayload tag cmp t f1 = encodePayload tag cmp t f2 := by
  suffices h : jsSortBy (cmpLe cmp) f1 = jsSortBy (cmpLe cmp) f2 by
    simp only [encodePayload, h]
  have htotB : ∀ a b : JStr × JStr, cmpLe cmp a b = true ∨ cmpLe cmp b a = true := by
    intro a b
    simp only [cmpLe, decide_eq_true_eq]
    by_cases hab : cmp a.1 b.1 = Ordering.gt
    · right; exact htot _ _ hab
    · left; exact hab
  have htransB : ∀ a b c : JStr × JStr, cmpLe cmp a b = true → cmpLe cmp b c = true →
      cmpLe cmp a c = true := by
    intro a b c
    simp only [cmpLe, decide_eq_true_eq]
    exact htrans _ _ _
  apply sorted_perm_eq (cmpLe cmp)
  · exact (jsSortBy_perm _ f1).trans (hp.trans (jsSortBy_perm _ f2).symm)
  · exact jsSortBy_sorted _ htotB htransB f1
  · exact jsSortBy_sorted _ htotB htransB f2
  · intro a ha b hb hab hba
    have ha1 := (jsSortBy_perm (cmpLe cmp) f1).mem_iff.mp ha
    have hb1 := (jsSortBy_perm (cmpLe cmp) f1).mem_iff.mp hb
    have hk := hanti a ha1 b hb1 (by simpa [cmpLe] using hab) (by simpa [cmpLe] using hba)
    exact nodup_fst_inj f1 hnodup a b ha1 hb1 hk

/-- C6 counterexample: under the (host-modelled) `localeCompare` collation the
encoder emits key `a` before key `B`, although `B` precedes `a` in code-point
order — the keys are not sorted ascending by code-point order. -/
theorem c6_counterexample :
    encodePayload chatTag localeCompareModel (jstr "msg")
      [(jstr "B", jstr "2"), (jstr "a", jstr "1")] =
      jstr "pubsub_chat|v1|msg|a=1|B=2" ∧
    cpCompare (jstr "B") (jstr "a") = Ordering.lt := by decide

/-- Witness for C6: with a total, transitive, tie-free comparator
(length comparison on keys of distinct lengths), the two insertion orders of
the same field map encode to the same payload. -/
theorem c6_insertion_order_witness :
    List.Perm [(jstr "bb", jstr "2"), (jstr "a", jstr "1")]
      [(jstr "a", jstr "1"), (jstr "bb", jstr "2")] ∧
    encodePayload chatTag (fun a b => compare a.length b.length) (jstr "msg")
      [(jstr "bb", jstr "2"), (jstr "a", jstr "1")] =
    encodePayload chatTag (fun a b => compare a.length b.length) (jstr "msg")
      [(jstr "a", jstr "1"), (jstr "bb", jstr "2")] :=
  ⟨by decide,
   c6_insertion_order chatTag (fun a b => compare a.length b.length) (jstr "msg")
     [(jstr "bb", jstr "2"), (jstr "a", jstr "1")]
     [(jstr "a", jstr "1"), (jstr "bb", jstr "2")]
     (by decide)
     (by
       intro a b hab
       rw [Nat.compare_eq_gt] at hab
       rw [ne_eq, Nat.compare_eq_gt]
       omega)
     (by
       intro a b c hab hbc
       rw [ne_eq, Nat.compare_eq_gt] at hab hbc ⊢
       omega)
     (by decide) (by decide)⟩
